import Mathlib

/-!
Verification of gwent-scraper: a shallow embedding of `gwent-scraper.go`.

The program loads player identifiers, fetches one profile page per identifier with at
most `Concurrency` fetch tasks in flight, extracts statistics from the page text with
eight fixed regular expressions, and writes one table row per identifier.

Conventions of the embedding.

* Go `string`s that are scanned (page bodies, regexp groups) are `List Char`; identifiers
  and table fields are `String`.  Page bodies are therefore valid Unicode text.
* Go `int` is the 64-bit `int`: values are `Int`, and `Atoi` rejects what does not fit.
* The three ways a piece of `main` can end are the constructors of `Outcome`:
  normal completion, `log.Fatal` through `checkError`, and the runtime error raised by
  indexing a slice out of range.
* `http.Get` and `json.Unmarshal` are library calls; they are parameters (`Env`), and
  the general theorems hold for every `Env`.  A decoder for `ProfileData` is given for
  the worked examples.
-/

namespace GwentScraper

/-! ## Constants and the data model -/

/-- Capacity of the semaphore channel `sem` (`Concurrency` in the source). -/
def Concurrency : Nat := 8

/-- Base of the profile URL. -/
def UrlBase : String := "https://www.playgwent.com/en/profile/"

/-- Go struct `Faction`. -/
structure Faction where
  Slug : List Char
  Count : Int
deriving DecidableEq, Repr

/-- Go struct `ProfileData` (the spec's ProfileStats). -/
structure ProfileData where
  Overall : Int
  Factions : List Faction
deriving DecidableEq, Repr

/-- Go struct `Player`. -/
structure Player where
  Current : ProfileData
  Total : ProfileData
  Losses : Int
  Draws : Int
  MMR : Int
  Rank : Int
  Prestige : Int
  Level : Int
  Id : String
deriving DecidableEq, Repr

/-- The zero value of `ProfileData`. -/
def ProfileData.zero : ProfileData := { Overall := 0, Factions := [] }

/-- Go `NewPlayer`: the zero `Player` with `Id` set and `Rank` preset to 30. -/
def NewPlayer (name : String) : Player :=
  { Current := ProfileData.zero, Total := ProfileData.zero, Losses := 0, Draws := 0,
    MMR := 0, Rank := 30, Prestige := 0, Level := 0, Id := name }

/-- How a fragment of `main` ends. -/
inductive Outcome (α : Type) where
  /-- Normal completion with a value. -/
  | ok (a : α)
  /-- `checkError` saw a non-nil error: `log.Fatal`. -/
  | fatal
  /-- Index out of range on a slice: runtime error, the process dies. -/
  | outOfRange
deriving DecidableEq, Repr

/-- Sequencing of outcomes: the first abnormal end wins. -/
def Outcome.bind {α β : Type} : Outcome α → (α → Outcome β) → Outcome β
  | .ok a, f => f a
  | .fatal, _ => .fatal
  | .outOfRange, _ => .outOfRange

instance : Monad Outcome where
  pure := Outcome.ok
  bind := Outcome.bind

/-- Go `checkError`, applied to the error of a call whose value is `r` (`none`: the call
returned a non-nil error). -/
def checkError {α : Type} (r : Option α) : Outcome α :=
  match r with
  | some a => .ok a
  | none => .fatal

/-- Slice indexing `m[i]`. -/
def index (m : List (List Char)) (i : Nat) : Outcome (List Char) :=
  match m.get? i with
  | some x => .ok x
  | none => .outOfRange

/-! ## The regular expressions

Go's `regexp` is leftmost-first: the match starts as early as possible and, among the
matches starting there, is the one a backtracking search finds first.  The eight
patterns of `main` are sequences of literals, single character classes, greedy or lazy
stars of a character class, and capture groups around such sequences.  `Atom.matches`
lists every way an atom can match a prefix of the input in backtracking order; the
first element of `matchItems` is the match of the whole pattern at a position. -/

/-- The character classes that occur in the patterns. -/
inductive CharClass where
  /-- The class `[0-9]`. -/
  | digit
  /-- The class `[0-9,]`. -/
  | digitComma
  /-- The class `[\s]`, which in Go is tab, newline, form feed, carriage return, space. -/
  | space
  /-- The dot: any character but newline. -/
  | dot
deriving DecidableEq, Repr

/-- Membership of a character in a class. -/
def CharClass.mem : CharClass → Char → Bool
  | .digit, c => c.isDigit
  | .digitComma, c => c.isDigit || c == ','
  | .space, c => c == '\t' || c == '\n' || c == '\x0c' || c == '\r' || c == ' '
  | .dot, c => c != '\n'

/-- Pieces of a pattern that consume text. -/
inductive Atom where
  /-- A literal string. -/
  | lit (s : List Char)
  /-- One character of a class. -/
  | one (c : CharClass)
  /-- Greedy star of a class, `x*`. -/
  | star (c : CharClass)
  /-- Lazy star of a class, `x*?`. -/
  | lazyStar (c : CharClass)
deriving DecidableEq, Repr

/-- A pattern item: an atom outside any group, or a capture group around atoms. -/
inductive Item where
  | atom (a : Atom)
  | group (as : List Atom)
deriving DecidableEq, Repr

/-- A compiled pattern. -/
abbrev Regexp := List Item

/-- Splits `(taken, rest)` of the input for `x*`: longest run first. -/
def greedySplits (c : CharClass) : List Char → List (List Char × List Char)
  | [] => [([], [])]
  | x :: xs =>
    (if c.mem x then (greedySplits c xs).map (fun mr => (x :: mr.1, mr.2)) else [])
      ++ [([], x :: xs)]

/-- Splits `(taken, rest)` of the input for `x*?`: shortest run first. -/
def lazySplits (c : CharClass) : List Char → List (List Char × List Char)
  | [] => [([], [])]
  | x :: xs =>
    ([], x :: xs) ::
      (if c.mem x then (lazySplits c xs).map (fun mr => (x :: mr.1, mr.2)) else [])

/-- The value of `stripPrefix s inp` is the input after the literal `s`, when it starts with it. -/
def stripPrefix : List Char → List Char → Option (List Char)
  | [], inp => some inp
  | _ :: _, [] => none
  | a :: s, x :: inp => if a = x then stripPrefix s inp else none

/-- Every way the atom matches a prefix of the input, in backtracking order. -/
def Atom.matches : Atom → List Char → List (List Char × List Char)
  | .lit s, inp =>
    match stripPrefix s inp with
    | some rest => [(s, rest)]
    | none => []
  | .one _, [] => []
  | .one c, x :: rest => if c.mem x then [([x], rest)] else []
  | .star c, inp => greedySplits c inp
  | .lazyStar c, inp => lazySplits c inp

/-- Every way a sequence of atoms matches a prefix of the input, in backtracking order. -/
def matchAtoms : List Atom → List Char → List (List Char × List Char)
  | [], inp => [([], inp)]
  | a :: as, inp =>
    (a.matches inp).flatMap fun m1 =>
      (matchAtoms as m1.2).map fun m2 => (m1.1 ++ m2.1, m2.2)

/-- Every way the pattern matches a prefix of the input, in backtracking order:
`(whole match, groups, rest)`. -/
def matchItems : Regexp → List Char → List (List Char × List (List Char) × List Char)
  | [], inp => [([], [], inp)]
  | .atom a :: is, inp =>
    (a.matches inp).flatMap fun m1 =>
      (matchItems is m1.2).map fun m2 => (m1.1 ++ m2.1, m2.2.1, m2.2.2)
  | .group as :: is, inp =>
    (matchAtoms as inp).flatMap fun m1 =>
      (matchItems is m1.2).map fun m2 => (m1.1 ++ m2.1, m1.1 :: m2.2.1, m2.2.2)

/-- The match of the pattern starting exactly at the head of the input, as the slice
`[whole, group1, ...]`. -/
def matchHere (re : Regexp) (inp : List Char) : Option (List (List Char)) :=
  match matchItems re inp with
  | [] => none
  | m :: _ => some (m.1 :: m.2.1)

/-- Go `(*Regexp).FindStringSubmatch`: the leftmost match as `[whole, group1, ...]`, or the
nil slice (`[]`) when the pattern matches nowhere. -/
def FindStringSubmatch (re : Regexp) : List Char → List (List Char)
  | [] => (matchHere re []).getD []
  | x :: xs =>
    match matchHere re (x :: xs) with
    | some m => m
    | none => FindStringSubmatch re xs

/-- Go `(*Regexp).MatchString`: whether the pattern matches somewhere. -/
def MatchString (re : Regexp) (s : List Char) : Bool :=
  !(FindStringSubmatch re s).isEmpty

/-- The pattern `THIS PLAYER PROFILE IS PRIVATE`. -/
def privateRegex : Regexp :=
  [.atom (.lit "THIS PLAYER PROFILE IS PRIVATE".toList)]

/-- The pattern `prestige--(?P<prestige>[0-9]*)"><strong>[\s]*(?P<level>[0-9]*)`. -/
def prestigeRegex : Regexp :=
  [.atom (.lit "prestige--".toList), .group [.star .digit],
   .atom (.lit "\"><strong>".toList), .atom (.star .space), .group [.star .digit]]

/-- The pattern `var profileDataWins = (?P<json>.*?);`. -/
def winsRegex : Regexp :=
  [.atom (.lit "var profileDataWins = ".toList), .group [.lazyStar .dot],
   .atom (.lit ";".toList)]

/-- The pattern `Losses</td><td>(?P<matches>[0-9,]*) matches</td>`. -/
def lossesRegex : Regexp :=
  [.atom (.lit "Losses</td><td>".toList), .group [.star .digitComma],
   .atom (.lit " matches</td>".toList)]

/-- The pattern `Draws</td><td>(?P<matches>[0-9,]*) matches</td>`. -/
def drawsRegex : Regexp :=
  [.atom (.lit "Draws</td><td>".toList), .group [.star .digitComma],
   .atom (.lit " matches</td>".toList)]

/-- The pattern `var profileDataCurrent = (?P<json>.*?);`. -/
def currentRegex : Regexp :=
  [.atom (.lit "var profileDataCurrent = ".toList), .group [.lazyStar .dot],
   .atom (.lit ";".toList)]

/-- The pattern `(?P<mmr>[0-9][0-9,]*) MMR`. -/
def mmrRegex : Regexp :=
  [.group [.one .digit, .star .digitComma], .atom (.lit " MMR".toList)]

/-- The pattern `-details__rank"><strong>(?P<rank>[0-9]*)<`. -/
def rankRegex : Regexp :=
  [.atom (.lit "-details__rank\"><strong>".toList), .group [.star .digit],
   .atom (.lit "<".toList)]

/-- Go `(*Regexp).NumSubexp`: the number of capture groups of the pattern. -/
def NumSubexp : Regexp → Nat
  | [] => 0
  | .atom _ :: re => NumSubexp re
  | .group _ :: re => NumSubexp re + 1

/-- The shape `lit(.*?);` shared by `winsRegex` and `currentRegex`. -/
def lazyAssign (lit : List Char) : Regexp :=
  [.atom (.lit lit), .group [.lazyStar .dot], .atom (.lit [';'])]

/-! ## Library calls: `strconv`, `strings`, `net/http`, `encoding/json` -/

/-- Value of a string of decimal digits. -/
def digitsValue (ds : List Char) : Nat :=
  ds.foldl (fun acc c => 10 * acc + (c.toNat - 48)) 0

/-- Go `strconv.Atoi` for the 64-bit `int`: an optional sign, then one or more decimal
digits, and the value must fit; `none` stands for a non-nil error. -/
def Atoi (s : List Char) : Option Int :=
  let neg := s.head? = some '-'
  let ds := if s.head? = some '-' ∨ s.head? = some '+' then s.tail else s
  if ds.isEmpty || !ds.all Char.isDigit then none
  else if neg then
    (if digitsValue ds ≤ 2 ^ 63 then some (-(digitsValue ds : Int)) else none)
  else
    (if digitsValue ds < 2 ^ 63 then some (digitsValue ds : Int) else none)

/-- Go `strconv.Itoa`: base-10 rendering. -/
def Itoa (n : Int) : String := toString n

/-- Go `strings.ReplaceAll(s, ",", "")`. -/
def stripCommas (s : List Char) : List Char := s.filter (fun c => c != ',')

/-- What `http.Get` followed by `ioutil.ReadAll` can deliver. -/
inductive HttpResult where
  /-- The call `http.Get` returned an error. -/
  | failed
  /-- A response with its status code; `body` is `none` when reading it fails. -/
  | response (StatusCode : Int) (body : Option (List Char))
deriving DecidableEq, Repr

/-- The outside world of one run: the answers of the web server, and the behaviour of
`json.Unmarshal` on a `*ProfileData` (`none`: a non-nil error). -/
structure Env where
  Get : String → HttpResult
  Unmarshal : List Char → ProfileData → Option ProfileData

/-! ## The fetch task of `main` (lines 82-140) -/

/-- Lines 100-107: decode the two embedded JSON fragments into `p.Total` and
`p.Current`.  Neither `winsMatch[1]` nor `currentMatch[1]` is guarded.  The two pattern
searches of lines 105-106 stand between the second decode and its `checkError`; they
cannot fail and are made in `numericFields`. -/
def decodeStats (env : Env) (p : Player) (bodyString : List Char) : Outcome Player := do
  let winsMatch := FindStringSubmatch winsRegex bodyString
  let winsJson ← index winsMatch 1
  let total ← checkError (env.Unmarshal winsJson p.Total)
  let p := { p with Total := total }
  let currentMatch := FindStringSubmatch currentRegex bodyString
  let currentJson ← index currentMatch 1
  let current ← checkError (env.Unmarshal currentJson p.Current)
  pure { p with Current := current }

/-- Lines 108-111: the rating, guarded by `len(mmrMatch) > 1`. -/
def parseMMR (p : Player) (mmrMatch : List (List Char)) : Outcome Player :=
  if mmrMatch.length > 1 then do
    let g ← index mmrMatch 1
    let v ← checkError (Atoi (stripCommas g))
    pure { p with MMR := v }
  else pure p

/-- Lines 112-116: the losses, guarded by `len(mmrMatch) > 1`. -/
def parseLosses (p : Player) (mmrMatch lossesMatch : List (List Char)) : Outcome Player :=
  if mmrMatch.length > 1 then do
    let g ← index lossesMatch 1
    let v ← checkError (Atoi (stripCommas g))
    pure { p with Losses := v }
  else pure p

/-- Lines 117-121: the draws, guarded by `len(mmrMatch) > 1`. -/
def parseDraws (p : Player) (mmrMatch drawsMatch : List (List Char)) : Outcome Player :=
  if mmrMatch.length > 1 then do
    let g ← index drawsMatch 1
    let v ← checkError (Atoi (stripCommas g))
    pure { p with Draws := v }
  else pure p

/-- Lines 122-126: the rank, guarded by `len(mmrMatch) > 1`. -/
def parseRank (p : Player) (mmrMatch rankMatch : List (List Char)) : Outcome Player :=
  if mmrMatch.length > 1 then do
    let g ← index rankMatch 1
    let v ← checkError (Atoi g)
    pure { p with Rank := v }
  else pure p

/-- Lines 127-132: prestige and level, guarded by `len(prestigeMatch) > 1`. -/
def parsePrestige (p : Player) (prestigeMatch : List (List Char)) : Outcome Player :=
  if prestigeMatch.length > 1 then do
    let g1 ← index prestigeMatch 1
    let v1 ← checkError (Atoi g1)
    let p := { p with Prestige := v1 }
    let g2 ← index prestigeMatch 2
    let v2 ← checkError (Atoi g2)
    pure { p with Level := v2 }
  else pure p

/-- Lines 105-132 after the JSON fragments are decoded: the numeric fields. -/
def numericFields (p : Player) (bodyString : List Char) : Outcome Player := do
  let mmrMatch := FindStringSubmatch mmrRegex bodyString
  let prestigeMatch := FindStringSubmatch prestigeRegex bodyString
  let p ← parseMMR p mmrMatch
  let lossesMatch := FindStringSubmatch lossesRegex bodyString
  let p ← parseLosses p mmrMatch lossesMatch
  let drawsMatch := FindStringSubmatch drawsRegex bodyString
  let p ← parseDraws p mmrMatch drawsMatch
  let rankMatch := FindStringSubmatch rankRegex bodyString
  let p ← parseRank p mmrMatch rankMatch
  parsePrestige p prestigeMatch

/-- Lines 99-132, the `else` branch of the privacy test: "Get stats". -/
def extract (env : Env) (p : Player) (bodyString : List Char) : Outcome Player := do
  let p ← decodeStats env p bodyString
  numericFields p bodyString

/-- Lines 93-137: what is done with the body of a 200 response. -/
def processBody (env : Env) (p : Player) (bodyString : List Char) : Outcome Player :=
  if MatchString privateRegex bodyString then pure p else extract env p bodyString

/-- Lines 85-138: the body of the goroutine for the record `p`, up to the deferred
release of the semaphore slot. -/
def fetchTask (env : Env) (p : Player) : Outcome Player :=
  match env.Get (UrlBase ++ p.Id) with
  | .failed => .fatal
  | .response StatusCode body =>
    if StatusCode = 200 then
      match body with
      | none => .fatal
      | some bodyString => processBody env p bodyString
    else pure p

/-! ## A decoder for the JSON fragments

`json.Unmarshal` into a `*ProfileData`, as `encoding/json` documents it: the text must be
one JSON value; an object sets the fields whose name matches a key exactly or under case
folding, unknown keys are skipped, `null` leaves its target as it is (a slice becomes
nil), a number literal must parse as a 64-bit integer, and every other mismatch of kinds
is an error, as is a nesting of arrays and objects deeper than 10000.  A repeated
`factions` key decodes its elements onto the backing array of the slice that is already
there.  The decoder only serves the worked examples; the general theorems hold for every
`Env.Unmarshal`. -/

/-- A parsed JSON value; numbers keep their literal text. -/
inductive JValue where
  | null
  | bool (b : Bool)
  | number (text : List Char)
  | string (s : List Char)
  | array (elems : List JValue)
  | object (members : List (List Char × JValue))

/-- JSON insignificant whitespace. -/
def isJsonSpace (c : Char) : Bool := c == ' ' || c == '\t' || c == '\r' || c == '\n'

/-- Drop leading JSON whitespace. -/
def skipSpace (inp : List Char) : List Char := inp.dropWhile isJsonSpace

/-- Value of a hexadecimal digit. -/
def hexVal (c : Char) : Option Nat :=
  if c.isDigit then some (c.toNat - 48)
  else if 'a' ≤ c ∧ c ≤ 'f' then some (c.toNat - 87)
  else if 'A' ≤ c ∧ c ≤ 'F' then some (c.toNat - 55)
  else none

/-- The four hexadecimal digits after a `\u`, as a number, and the rest. -/
def getu4 (inp : List Char) : Option (Nat × List Char) :=
  match inp with
  | a :: b :: c :: d :: rest => do
    let x ← hexVal a
    let y ← hexVal b
    let z ← hexVal c
    let w ← hexVal d
    some (((x * 16 + y) * 16 + z) * 16 + w, rest)
  | _ => none

/-- The character of a `\uXXXX` escape with value `n`, given what follows it: a high
surrogate followed by an escaped low surrogate is the pair (and consumes it), any other
surrogate is U+FFFD. -/
def escapedChar (n : Nat) (rest : List Char) : Char × List Char :=
  if 0xD800 ≤ n ∧ n < 0xE000 then
    match rest with
    | '\\' :: 'u' :: rest1 =>
      match getu4 rest1 with
      | some (m, rest2) =>
        if n < 0xDC00 ∧ 0xDC00 ≤ m ∧ m < 0xE000 then
          (Char.ofNat (0x10000 + (n - 0xD800) * 0x400 + (m - 0xDC00)), rest2)
        else (Char.ofNat 0xFFFD, rest)
      | none => (Char.ofNat 0xFFFD, rest)
    | _ => (Char.ofNat 0xFFFD, rest)
  else (Char.ofNat n, rest)

/-- A string literal after its opening quote: the decoded text and the rest. -/
def parseString : Nat → List Char → Option (List Char × List Char)
  | 0, _ => none
  | _ + 1, [] => none
  | _ + 1, '"' :: rest => some ([], rest)
  | fuel + 1, '\\' :: e :: rest =>
    if e = 'u' then
      match getu4 rest with
      | some (n, rest1) =>
        (parseString fuel (escapedChar n rest1).2).map
          (fun r => ((escapedChar n rest1).1 :: r.1, r.2))
      | none => none
    else
      let plain : Option Char :=
        if e = '"' then some '"' else if e = '\\' then some '\\'
        else if e = '/' then some '/' else if e = 'b' then some '\x08'
        else if e = 'f' then some '\x0c' else if e = 'n' then some '\n'
        else if e = 'r' then some '\r' else if e = 't' then some '\t' else none
      match plain with
      | some c => (parseString fuel rest).map (fun r => (c :: r.1, r.2))
      | none => none
  | fuel + 1, c :: rest =>
    if c = '\\' ∨ c.toNat < 0x20 then none
    else (parseString fuel rest).map (fun r => (c :: r.1, r.2))

/-- A maximal run of decimal digits and the rest. -/
def spanDigits (inp : List Char) : List Char × List Char := inp.span Char.isDigit

/-- A number literal `-?(0|[1-9][0-9]*)(\.[0-9]+)?([eE][+-]?[0-9]+)?`: its text and the
rest. -/
def parseNumber (inp : List Char) : Option (List Char × List Char) :=
  let sign := if inp.head? = some '-' then ['-'] else []
  let inp1 := if inp.head? = some '-' then inp.tail else inp
  let intPart := (spanDigits inp1).1
  let inp2 := (spanDigits inp1).2
  if intPart.isEmpty || (intPart.head? = some '0' && intPart.length > 1) then none
  else
    let frac : Option (List Char × List Char) :=
      match inp2 with
      | '.' :: r =>
        if (spanDigits r).1.isEmpty then none else some ('.' :: (spanDigits r).1, (spanDigits r).2)
      | _ => some ([], inp2)
    match frac with
    | none => none
    | some (fracPart, inp3) =>
      match inp3 with
      | e :: r =>
        if e = 'e' ∨ e = 'E' then
          let esign := if r.head? = some '+' ∨ r.head? = some '-' then r.take 1 else []
          let r1 := if r.head? = some '+' ∨ r.head? = some '-' then r.tail else r
          if (spanDigits r1).1.isEmpty then none
          else some (sign ++ intPart ++ fracPart ++ e :: esign ++ (spanDigits r1).1,
                     (spanDigits r1).2)
        else some (sign ++ intPart ++ fracPart, inp3)
      | [] => some (sign ++ intPart ++ fracPart, inp3)

/-- The deepest nesting of arrays and objects the scanner of `encoding/json` accepts. -/
def maxNestingDepth : Nat := 10000

mutual
/-- A JSON value at the head of the input (after whitespace) and the rest; `depth` is
the number of arrays and objects that are open around it. -/
def parseValue : Nat → Nat → List Char → Option (JValue × List Char)
  | 0, _, _ => none
  | fuel + 1, depth, inp =>
    match skipSpace inp with
    | '{' :: rest =>
      if depth ≥ maxNestingDepth then none
      else
        match skipSpace rest with
        | '}' :: rest1 => some (.object [], rest1)
        | _ => (parseMembers fuel (depth + 1) rest).map (fun r => (.object r.1, r.2))
    | '[' :: rest =>
      if depth ≥ maxNestingDepth then none
      else
        match skipSpace rest with
        | ']' :: rest1 => some (.array [], rest1)
        | _ => (parseElems fuel (depth + 1) rest).map (fun r => (.array r.1, r.2))
    | '"' :: rest => (parseString (rest.length + 1) rest).map (fun r => (.string r.1, r.2))
    | 't' :: 'r' :: 'u' :: 'e' :: rest => some (.bool true, rest)
    | 'f' :: 'a' :: 'l' :: 's' :: 'e' :: rest => some (.bool false, rest)
    | 'n' :: 'u' :: 'l' :: 'l' :: rest => some (.null, rest)
    | rest => (parseNumber rest).map (fun r => (.number r.1, r.2))
/-- The elements of a non-empty array after its bracket, up to the closing bracket. -/
def parseElems : Nat → Nat → List Char → Option (List JValue × List Char)
  | 0, _, _ => none
  | fuel + 1, depth, inp =>
    match parseValue fuel depth inp with
    | none => none
    | some (v, rest) =>
      match skipSpace rest with
      | ',' :: rest1 => (parseElems fuel depth rest1).map (fun r => (v :: r.1, r.2))
      | ']' :: rest1 => some ([v], rest1)
      | _ => none
/-- The members of a non-empty object after its brace, up to the closing brace. -/
def parseMembers : Nat → Nat → List Char →
    Option (List (List Char × JValue) × List Char)
  | 0, _, _ => none
  | fuel + 1, depth, inp =>
    match skipSpace inp with
    | '"' :: rest =>
      match parseString (rest.length + 1) rest with
      | none => none
      | some (key, rest1) =>
        match skipSpace rest1 with
        | ':' :: rest2 =>
          match parseValue fuel depth rest2 with
          | none => none
          | some (v, rest3) =>
            match skipSpace rest3 with
            | ',' :: rest4 =>
              (parseMembers fuel depth rest4).map (fun r => ((key, v) :: r.1, r.2))
            | '}' :: rest4 => some ([(key, v)], rest4)
            | _ => none
        | _ => none
    | _ => none
end

/-- Case folding of a key character towards a lower-case ASCII field name: upper-case
ASCII letters, and the two other characters that fold to an ASCII letter (the long s and
the Kelvin sign). -/
def foldChar (c : Char) : Char :=
  if c.isUpper then c.toLower
  else if c = Char.ofNat 0x17F then 's'
  else if c = Char.ofNat 0x212A then 'k'
  else c

/-- Whether the object key selects the field with the (lower-case) JSON name. -/
def keyIs (name : String) (key : List Char) : Bool := key.map foldChar == name.toList

/-- Decode a value into an `int` field. -/
def decodeInt (v : JValue) (old : Int) : Option Int :=
  match v with
  | .number text => Atoi text
  | .null => some old
  | _ => none

/-- Decode a value into a `string` field. -/
def decodeText (v : JValue) (old : List Char) : Option (List Char) :=
  match v with
  | .string s => some s
  | .null => some old
  | _ => none

/-- One member of an object decoded into a `Faction`. -/
def decodeFactionMember (f : Faction) (m : List Char × JValue) : Option Faction :=
  if keyIs "slug" m.1 then (decodeText m.2 f.Slug).map (fun s => { f with Slug := s })
  else if keyIs "count" m.1 then (decodeInt m.2 f.Count).map (fun n => { f with Count := n })
  else some f

/-- Decode a value into a `Faction`. -/
def decodeFaction (v : JValue) (old : Faction) : Option Faction :=
  match v with
  | .object members => members.foldlM decodeFactionMember old
  | .null => some old
  | _ => none

/-- Decode the elements of an array onto the elements of the backing array of the
slice, index by index; past its end the element starts from the zero `Faction`. -/
def decodeElems : List JValue → List Faction → Option (List Faction)
  | [], _ => some []
  | v :: vs, backing =>
    match decodeFaction v (backing.headD { Slug := [], Count := 0 }) with
    | none => none
    | some f => (decodeElems vs backing.tail).map (fun fs => f :: fs)

/-- Decode a value into a `[]Faction` field.  The slice is `old`; `stale` are the
elements of its backing array past its length, which an earlier, longer array under the
same key has left there and which growing the slice exposes again.  The result is the
new slice and the new stale elements.  An empty array and `null` give a fresh slice. -/
def decodeFactions (v : JValue) (old stale : List Faction) :
    Option (List Faction × List Faction) :=
  match v with
  | .array [] => some ([], [])
  | .array elems =>
    (decodeElems elems (old ++ stale)).map (fun fs => (fs, (old ++ stale).drop fs.length))
  | .null => some ([], [])
  | _ => none

/-- One member of an object decoded into a `ProfileData`, with the stale elements of
its `Factions`. -/
def decodeProfileMember (st : ProfileData × List Faction) (m : List Char × JValue) :
    Option (ProfileData × List Faction) :=
  if keyIs "overall" m.1 then
    (decodeInt m.2 st.1.Overall).map (fun n => ({ st.1 with Overall := n }, st.2))
  else if keyIs "factions" m.1 then
    (decodeFactions m.2 st.1.Factions st.2).map
      (fun r => ({ st.1 with Factions := r.1 }, r.2))
  else some st

/-- Decode a value into a `ProfileData` whose `Factions` slice is as long as its
backing array. -/
def decodeProfileData (v : JValue) (old : ProfileData) : Option ProfileData :=
  match v with
  | .object members => (members.foldlM decodeProfileMember (old, [])).map (fun st => st.1)
  | .null => some old
  | _ => none

/-- The decoder `json.Unmarshal([]byte(text), &pd)`: `none` is a non-nil error. -/
def jsonUnmarshal (text : List Char) (pd : ProfileData) : Option ProfileData :=
  match parseValue (text.length + 1) 0 text with
  | none => none
  | some (v, rest) => if (skipSpace rest).isEmpty then decodeProfileData v pd else none

/-! ## `main`: loading, the semaphore, the table writer

`main` and its goroutines are a step relation on `State`.  `main` starts the task for
`players[i]` after it has put a value into the channel `sem` (lines 81-82); the task
works on its own record and, when its body is done, takes one value out of `sem` (the
deferred `<-sem` of line 83).  No other code touches the record of a running task, so
the work of a task is one step that stores the record and releases the slot.

A task can also end the process.  `log.Fatal` exits at once and runs no deferred call;
the slot of that task is never released.  A runtime error (index out of range) first
runs the deferred calls, so the slot is released, and the process terminates after
that: until it does, `main` and the other tasks go on.  The record such a task leaves
behind may be partly updated; the model allows any record with the same identifier.
Failures of the file system are not part of the model. -/

/-- Lines 73-77: one `Player` per CSV record, from its first field `line[0]`.  The
argument is what `csv.NewReader(f).ReadAll()` returned. -/
def loadPlayers : List (List String) → Outcome (List Player)
  | [] => .ok []
  | line :: lines =>
    match line.get? 0 with
    | none => .outOfRange
    | some name =>
      match loadPlayers lines with
      | .ok players => .ok (NewPlayer name :: players)
      | .fatal => .fatal
      | .outOfRange => .outOfRange

/-- The identifiers of the loaded records: the first field of every line. -/
def identifiers (lines : List (List String)) : List String :=
  lines.filterMap (fun line => line.get? 0)

/-- The header row written at line 155. -/
def header : List String :=
  ["id", "rank", "total wins", "current wins", "current losses", "current draws", "MMR",
   "prestige", "level"]

/-- The fields written for one player at line 159. -/
def row (p : Player) : List String :=
  [p.Id, Itoa p.Rank, Itoa p.Total.Overall, Itoa p.Current.Overall, Itoa p.Losses,
   Itoa p.Draws, Itoa p.MMR, Itoa p.Prestige, Itoa p.Level]

/-- Lines 155-161: the records handed to the CSV writer, in order. -/
def writeRows (players : List Player) : List (List String) :=
  header :: players.map row

/-- Whether the process is alive, has written the table, or has exited on a failure. -/
inductive Phase where
  | active
  | written
  | exited
deriving DecidableEq, Repr

/-- The state of the orchestrator. -/
structure State where
  /-- The slice `players`. -/
  players : List Player
  /-- Index `i` of the launch loop (lines 80-141): tasks `0 .. i-1` have been launched. -/
  i : Nat
  /-- Indices of the tasks that were launched and have not released their slot. -/
  running : List Nat
  /-- Indices of the tasks that ended in a runtime error. -/
  crashed : List Nat
  /-- Number of values in the channel `sem`. -/
  sem : Nat
  /-- Index of the drain loop (lines 143-145): values `main` itself has put back. -/
  drained : Nat
  phase : Phase
  /-- The rows given to the table writer, once it has run. -/
  output : Option (List (List String))
deriving DecidableEq, Repr

/-- The state after loading. -/
def State.init (players : List Player) : State :=
  { players := players, i := 0, running := [], crashed := [], sem := 0, drained := 0,
    phase := .active, output := none }

/-- The steps of `main` and of its tasks. -/
inductive Event where
  /-- Lines 81-82: `sem <- true` succeeds and the task for `players[i]` is started. -/
  | launch
  /-- Task `k` ends normally: its record is complete and the deferred `<-sem` has run. -/
  | finish (k : Nat)
  /-- Task `k` ends in `log.Fatal`: the process exits. -/
  | fatal (k : Nat)
  /-- Task `k` ends in a runtime error: it leaves the record `q` behind and its deferred
  `<-sem` runs. -/
  | crash (k : Nat) (q : Player)
  /-- The process terminates after a runtime error. -/
  | exit
  /-- Line 144: `sem <- true` in the drain loop succeeds. -/
  | fill
  /-- Lines 147-161: the drain loop is over and the table is written. -/
  | write
deriving DecidableEq, Repr

/-- One step; `none` when the event is not enabled in the state (a send on the full
channel blocks, a loop condition is false, the task does not end that way). -/
def step (env : Env) (s : State) : Event → Option State
  | .launch =>
    if s.phase = .active ∧ s.i < s.players.length ∧ s.sem < Concurrency then
      some { s with i := s.i + 1, running := s.i :: s.running, sem := s.sem + 1 }
    else none
  | .finish k =>
    if s.phase = .active ∧ k ∈ s.running ∧ 0 < s.sem then
      match s.players.get? k with
      | none => none
      | some p =>
        match fetchTask env p with
        | .ok q =>
          some { s with players := s.players.set k q, running := s.running.erase k,
                        sem := s.sem - 1 }
        | _ => none
    else none
  | .fatal k =>
    if s.phase = .active ∧ k ∈ s.running then
      match s.players.get? k with
      | none => none
      | some p =>
        match fetchTask env p with
        | .fatal => some { s with phase := .exited }
        | _ => none
    else none
  | .crash k q =>
    if s.phase = .active ∧ k ∈ s.running ∧ 0 < s.sem then
      match s.players.get? k with
      | none => none
      | some p =>
        match fetchTask env p with
        | .outOfRange =>
          if q.Id = p.Id then
            some { s with players := s.players.set k q, running := s.running.erase k,
                          crashed := k :: s.crashed, sem := s.sem - 1 }
          else none
        | _ => none
    else none
  | .exit =>
    if s.phase = .active ∧ s.crashed ≠ [] then some { s with phase := .exited } else none
  | .fill =>
    if s.phase = .active ∧ s.i = s.players.length ∧ s.drained < Concurrency
        ∧ s.sem < Concurrency then
      some { s with sem := s.sem + 1, drained := s.drained + 1 }
    else none
  | .write =>
    if s.phase = .active ∧ s.i = s.players.length ∧ s.drained = Concurrency then
      some { s with phase := .written, output := some (writeRows s.players) }
    else none

/-- Run a schedule from a state. -/
def run (env : Env) (s : State) : List Event → Option State
  | [] => some s
  | e :: es =>
    match step env s e with
    | none => none
    | some t => run env t es

/-- The states `main` can be in after loading `lines`, under any interleaving. -/
inductive Reachable (env : Env) (lines : List (List String)) : State → Prop where
  | init (players : List Player) (h : loadPlayers lines = .ok players) :
      Reachable env lines (State.init players)
  | step (s t : State) (e : Event) (hs : Reachable env lines s) (h : step env s e = some t) :
      Reachable env lines t

/-- The state a schedule leads to from the loaded lines (the initial state of the empty
file when loading or a step fails). -/
def stateAfter (env : Env) (lines : List (List String)) (es : List Event) : State :=
  match loadPlayers lines with
  | .ok players => (run env (State.init players) es).getD (State.init [])
  | _ => State.init []

/-! ## The orchestrator's invariant -/

/-- What holds in every reachable state, for the players `orig` as loaded. -/
structure Inv (env : Env) (orig : List Player) (s : State) : Prop where
  len : s.players.length = orig.length
  i_le : s.i ≤ orig.length
  sem_eq : s.sem = s.running.length + s.drained
  sem_le : s.sem ≤ Concurrency
  run_lt : ∀ k ∈ s.running, k < s.i
  nodup : s.running.Nodup
  recs : ∀ k p, orig.get? k = some p → ∃ q, s.players.get? k = some q ∧ q.Id = p.Id ∧
    (if k < s.i ∧ k ∉ s.running then
      (if k ∈ s.crashed then fetchTask env p = .outOfRange else fetchTask env p = .ok q)
    else q = p ∧ k ∉ s.crashed)
  fill_i : 0 < s.drained → s.i = orig.length
  out : s.phase = .written →
    s.drained = Concurrency ∧ s.output = some (writeRows s.players)
  out_none : s.phase ≠ .written → s.output = none

/-! ## Worked examples -/

/-- The example page up to its rating marker: JSON fragments, rank, prestige and level. -/
def fullHead : List Char :=
  ("<html><script>var profileDataWins = \x7b\"overall\":42,\"factions\":" ++
   "[\x7b\"slug\":\"NR\",\"count\":10\x7d]\x7d;\n" ++
   "var profileDataCurrent = \x7b\"overall\":7,\"factions\":[]\x7d;</script>" ++
   "<div class=\"l-player-details__rank\"><strong>12</strong></div>" ++
   "<div class=\"l-player-details__prestige l-player-details__prestige--3\"><strong>\n 45" ++
   "</strong></div><span>").toList

/-- The example page after its rating marker: losses and draws. -/
def fullTail : List Char :=
  ("</span><tr><td>Losses</td><td>1,005 matches</td></tr>" ++
   "<tr><td>Draws</td><td>9 matches</td></tr></html>").toList

/-- A page with every marker, used in the worked examples. -/
def fullPage : List Char := fullHead ++ "1,234 MMR".toList ++ fullTail

/-- The record extracted from `fullPage` for `alice`. -/
def fullRecord : Player :=
  { Current := { Overall := 7, Factions := [] },
    Total := { Overall := 42, Factions := [{ Slug := "NR".toList, Count := 10 }] },
    Losses := 1005, Draws := 9, MMR := 1234, Rank := 12, Prestige := 3, Level := 45,
    Id := "alice" }

/-- A private page. -/
def privatePage : List Char :=
  "<html><h1>THIS PLAYER PROFILE IS PRIVATE</h1> 77 MMR</html>".toList

/-- A page without any marker. -/
def emptyPage : List Char := "<html></html>".toList

/-- A server with one full profile (`alice`), one private profile (`bob`), one page
without any marker (`dave`), and nothing else. -/
def exampleEnv : Env where
  Get := fun url =>
    if url = UrlBase ++ "alice" then .response 200 (some fullPage)
    else if url = UrlBase ++ "bob" then .response 200 (some privatePage)
    else if url = UrlBase ++ "dave" then .response 200 (some emptyPage)
    else .response 404 none
  Unmarshal := jsonUnmarshal

/-- An identifier file with three records of two fields each; only the first field is
used. -/
def exampleLines : List (List String) :=
  [["alice", "first"], ["bob", "second"], ["carol", "third"]]

/-- A schedule in which the tasks finish out of launch order and the drain loop
overlaps with the last task. -/
def exampleSchedule : List Event :=
  [.launch, .launch, .finish 1, .launch, .finish 0, .fill, .fill, .fill, .fill, .fill,
   .fill, .fill, .finish 2, .fill, .write]

/-- An identifier file with nine records. -/
def nineLines : List (List String) :=
  [["p1"], ["p2"], ["p3"], ["p4"], ["p5"], ["p6"], ["p7"], ["p8"], ["p9"]]

/-- The object of the spec's example: valid, with overall count 42. -/
def json42 : List Char :=
  "\x7b\"overall\":42,\"factions\":[\x7b\"slug\":\"NR\",\"count\":10\x7d]\x7d".toList

/-- The assignment of the spec's example. -/
def wins42 : List Char := "var profileDataWins = ".toList ++ json42 ++ [';']

/-- A valid assignment of the current-season fragment. -/
def current7 : List Char :=
  "var profileDataCurrent = \x7b\"overall\":7,\"factions\":[]\x7d;".toList

/-- A page with the two JSON fragments and no other marker. -/
def statsPage : List Char := wins42 ++ current7

/-- The lifetime fragment is valid, the current-season fragment does not decode. -/
def badCurrentPage : List Char :=
  wins42 ++ "var profileDataCurrent = undefined;".toList ++ "<span>1,234 MMR</span>".toList

/-- A valid object of overall count 42 with a semicolon inside a string. -/
def semicolonJson : List Char :=
  "\x7b\"overall\":42,\"factions\":[\x7b\"slug\":\"N;R\",\"count\":10\x7d]\x7d".toList

/-- Both fragments are valid; the lifetime object is `semicolonJson`. -/
def semicolonPage : List Char :=
  "var profileDataWins = ".toList ++ semicolonJson ++ [';'] ++ current7

/-- The markers for losses, draws and rank, all well-formed. -/
def otherMarkers : List Char :=
  ("<td>Losses</td><td>1,005 matches</td><td>Draws</td><td>9 matches</td>" ++
   "<div class=\"l-player-details__rank\"><strong>12</strong></div>").toList

/-- Every fragment and marker is well-formed; the rating is 2^63. -/
def bigRatingPage : List Char :=
  statsPage ++ "<span>9,223,372,036,854,775,808 MMR</span>".toList ++ otherMarkers

/-- The JSON fragments and a rating marker; no losses, draws or rank marker. -/
def ratingOnlyPage : List Char := statsPage ++ "<span>1,234 MMR</span>".toList

/-- Everything but the rank marker: JSON fragments, rating, losses, draws. -/
def noRankPage : List Char :=
  statsPage ++ ("<span>1,234 MMR</span>" ++
    "<td>Losses</td><td>1,005 matches</td><td>Draws</td><td>9 matches</td>").toList

/-- The JSON fragments and a prestige/level marker; no rating marker. -/
def prestigeOnlyPage : List Char :=
  statsPage ++ "<div class=\"l-player-details__prestige--3\"><strong>\n 45</strong>".toList

/-- The JSON fragments and a rank marker whose digit group is empty; no rating marker. -/
def emptyRankPage : List Char :=
  statsPage ++ "<div class=\"l-player-details__rank\"><strong></strong></div>".toList


/-- The record of `alice` after the two fragments of `statsPage` are decoded. -/
def statsRecord : Player :=
  { NewPlayer "alice" with
    Total := { Overall := 42, Factions := [{ Slug := "NR".toList, Count := 10 }] },
    Current := { Overall := 7, Factions := [] } }

/-- Every fragment and marker but the prestige/level marker. -/
def noPrestigePage : List Char :=
  statsPage ++ "<span>1,234 MMR</span>".toList ++ otherMarkers


/-- The JSON fragments and well-formed losses, draws and rank markers; no rating
marker. -/
def noRatingPage : List Char := statsPage ++ otherMarkers

/-! ## Lemmas on outcomes -/

@[simp] theorem bind_ok {α β : Type} (a : α) (f : α → Outcome β) :
    (Outcome.ok a >>= f) = f a := rfl

@[simp] theorem bind_fatal {α β : Type} (f : α → Outcome β) :
    ((Outcome.fatal : Outcome α) >>= f) = Outcome.fatal := rfl

@[simp] theorem bind_outOfRange {α β : Type} (f : α → Outcome β) :
    ((Outcome.outOfRange : Outcome α) >>= f) = Outcome.outOfRange := rfl

@[simp] theorem pure_eq_ok {α : Type} (a : α) : (pure a : Outcome α) = Outcome.ok a := rfl

theorem bind_eq_ok {α β : Type} {x : Outcome α} {f : α → Outcome β} {b : β}
    (h : (x >>= f) = Outcome.ok b) : ∃ a, x = Outcome.ok a ∧ f a = Outcome.ok b := by
  cases x with
  | ok a => exact ⟨a, rfl, h⟩
  | fatal => cases h
  | outOfRange => cases h

/-! ## Lemmas on the regular expressions -/



theorem stripPrefix_eq_some (s inp rest : List Char) :
    stripPrefix s inp = some rest ↔ inp = s ++ rest := by
  induction s generalizing inp with
  | nil => simp [stripPrefix, eq_comm]
  | cons a s ih =>
    cases inp with
    | nil => simp [stripPrefix]
    | cons x inp =>
      simp only [stripPrefix, List.cons_append, List.cons.injEq]
      by_cases hax : a = x
      · simp [hax, ih]
      · simp [hax, Ne.symm hax]

theorem mem_lazySplits (c : CharClass) (inp : List Char) (mr : List Char × List Char)
    (h : mr ∈ lazySplits c inp) : inp = mr.1 ++ mr.2 ∧ ∀ x ∈ mr.1, c.mem x = true := by
  induction inp generalizing mr with
  | nil =>
    simp only [lazySplits, List.mem_singleton] at h
    subst h; simp
  | cons x xs ih =>
    simp only [lazySplits, List.mem_cons] at h
    rcases h with h | h
    · subst h; simp
    · split at h
      · rename_i hx
        simp only [List.mem_map] at h
        obtain ⟨mr0, hm, rfl⟩ := h
        obtain ⟨h1, h2⟩ := ih mr0 hm
        refine ⟨by simp [← h1], ?_⟩
        intro y hy
        simp only [List.mem_cons] at hy
        rcases hy with rfl | hy
        · exact hx
        · exact h2 y hy
      · cases h

theorem mem_greedySplits (c : CharClass) (inp : List Char) (mr : List Char × List Char)
    (h : mr ∈ greedySplits c inp) : inp = mr.1 ++ mr.2 ∧ ∀ x ∈ mr.1, c.mem x = true := by
  induction inp generalizing mr with
  | nil =>
    simp only [greedySplits, List.mem_singleton] at h
    subst h; simp
  | cons x xs ih =>
    simp only [greedySplits, List.mem_append, List.mem_singleton] at h
    rcases h with h | h
    · split at h
      · rename_i hx
        simp only [List.mem_map] at h
        obtain ⟨mr0, hm, rfl⟩ := h
        obtain ⟨h1, h2⟩ := ih mr0 hm
        refine ⟨by simp [← h1], ?_⟩
        intro y hy
        simp only [List.mem_cons] at hy
        rcases hy with rfl | hy
        · exact hx
        · exact h2 y hy
      · cases h
    · subst h; simp


theorem mem_matches_lit (s inp : List Char) (mr : List Char × List Char) :
    mr ∈ (Atom.lit s).matches inp ↔ mr.1 = s ∧ inp = s ++ mr.2 := by
  simp only [Atom.matches]
  cases h : stripPrefix s inp with
  | none =>
    simp only [List.not_mem_nil, false_iff, not_and]
    intro _ h2
    rw [(stripPrefix_eq_some s inp mr.2).2 h2] at h; cases h
  | some rest =>
    have := (stripPrefix_eq_some s inp rest).1 h
    simp only [List.mem_singleton]
    constructor
    · rintro rfl; exact ⟨rfl, this⟩
    · rintro ⟨h1, h2⟩
      rw [this] at h2
      have := List.append_cancel_left h2
      cases mr; simp_all

theorem mem_matches_one (c : CharClass) (inp : List Char) (mr : List Char × List Char) :
    mr ∈ (Atom.one c).matches inp ↔ ∃ x, c.mem x = true ∧ mr.1 = [x] ∧ inp = x :: mr.2 := by
  cases inp with
  | nil => simp [Atom.matches]
  | cons y ys =>
    simp only [Atom.matches]
    by_cases hy : c.mem y = true
    · simp only [hy, if_true, List.mem_singleton, List.cons.injEq]
      constructor
      · rintro rfl; exact ⟨y, hy, rfl, rfl, rfl⟩
      · rintro ⟨x, _, h1, h2, h3⟩
        cases mr; simp_all
    · have hy2 : c.mem y = false := by simpa using hy
      simp only [hy2, List.cons.injEq]
      constructor
      · intro h; simp at h
      · rintro ⟨x, hx, _, h, _⟩
        rw [h, hx] at hy2; cases hy2

theorem mem_matchAtoms_cons (a : Atom) (as : List Atom) (inp : List Char)
    (mr : List Char × List Char) :
    mr ∈ matchAtoms (a :: as) inp ↔
      ∃ m1 ∈ a.matches inp, ∃ m2 ∈ matchAtoms as m1.2, mr = (m1.1 ++ m2.1, m2.2) := by
  simp only [matchAtoms, List.mem_flatMap, List.mem_map]
  constructor
  · rintro ⟨m1, h1, m2, h2, rfl⟩; exact ⟨m1, h1, m2, h2, rfl⟩
  · rintro ⟨m1, h1, m2, h2, rfl⟩; exact ⟨m1, h1, m2, h2, rfl⟩

theorem mem_matchItems_atom (a : Atom) (re : Regexp) (inp : List Char)
    (m : List Char × List (List Char) × List Char) :
    m ∈ matchItems (.atom a :: re) inp ↔
      ∃ m1 ∈ a.matches inp, ∃ m2 ∈ matchItems re m1.2, m = (m1.1 ++ m2.1, m2.2.1, m2.2.2) := by
  simp only [matchItems, List.mem_flatMap, List.mem_map]
  constructor
  · rintro ⟨m1, h1, m2, h2, rfl⟩; exact ⟨m1, h1, m2, h2, rfl⟩
  · rintro ⟨m1, h1, m2, h2, rfl⟩; exact ⟨m1, h1, m2, h2, rfl⟩

theorem mem_matchItems_group (as : List Atom) (re : Regexp) (inp : List Char)
    (m : List Char × List (List Char) × List Char) :
    m ∈ matchItems (.group as :: re) inp ↔
      ∃ m1 ∈ matchAtoms as inp, ∃ m2 ∈ matchItems re m1.2,
        m = (m1.1 ++ m2.1, m1.1 :: m2.2.1, m2.2.2) := by
  simp only [matchItems, List.mem_flatMap, List.mem_map]
  constructor
  · rintro ⟨m1, h1, m2, h2, rfl⟩; exact ⟨m1, h1, m2, h2, rfl⟩
  · rintro ⟨m1, h1, m2, h2, rfl⟩; exact ⟨m1, h1, m2, h2, rfl⟩

/-- Every match listed for an atom splits the input. -/
theorem matches_sound (a : Atom) (inp : List Char) (mr : List Char × List Char)
    (h : mr ∈ a.matches inp) : inp = mr.1 ++ mr.2 := by
  cases a with
  | lit s =>
    obtain ⟨h1, h2⟩ := (mem_matches_lit s inp mr).1 h
    rw [h1]; exact h2
  | one c =>
    obtain ⟨x, _, h1, h2⟩ := (mem_matches_one c inp mr).1 h
    rw [h1]; exact h2
  | star c => exact (mem_greedySplits c inp mr h).1
  | lazyStar c => exact (mem_lazySplits c inp mr h).1

/-- Every match listed for a sequence of atoms splits the input. -/
theorem matchAtoms_sound (as : List Atom) (inp : List Char) (mr : List Char × List Char)
    (h : mr ∈ matchAtoms as inp) : inp = mr.1 ++ mr.2 := by
  induction as generalizing inp mr with
  | nil =>
    simp only [matchAtoms, List.mem_singleton] at h
    subst h; rfl
  | cons a as ih =>
    obtain ⟨m1, h1, m2, h2, rfl⟩ := (mem_matchAtoms_cons a as inp mr).1 h
    have e1 := matches_sound a inp m1 h1
    have e2 := ih m1.2 m2 h2
    simp only [List.append_assoc, ← e2, ← e1]

/-- Every match listed for a pattern splits the input into the whole match and the
rest. -/
theorem matchItems_sound (re : Regexp) (inp : List Char)
    (m : List Char × List (List Char) × List Char) (h : m ∈ matchItems re inp) :
    inp = m.1 ++ m.2.2 := by
  induction re generalizing inp m with
  | nil =>
    simp only [matchItems, List.mem_singleton] at h
    subst h; rfl
  | cons it re ih =>
    cases it with
    | atom a =>
      obtain ⟨m1, h1, m2, h2, rfl⟩ := (mem_matchItems_atom a re inp m).1 h
      have e1 := matches_sound a inp m1 h1
      have e2 := ih m1.2 m2 h2
      simp only [List.append_assoc, ← e2, ← e1]
    | group as =>
      obtain ⟨m1, h1, m2, h2, rfl⟩ := (mem_matchItems_group as re inp m).1 h
      have e1 := matchAtoms_sound as inp m1 h1
      have e2 := ih m1.2 m2 h2
      simp only [List.append_assoc, ← e2, ← e1]

theorem matchHere_eq_some (re : Regexp) (inp : List Char) (m : List (List Char))
    (h : matchHere re inp = some m) :
    ∃ t ∈ matchItems re inp, (matchItems re inp).head? = some t ∧ m = t.1 :: t.2.1 := by
  unfold matchHere at h
  split at h
  · cases h
  · rename_i t ts heq
    cases h
    exact ⟨t, by rw [heq]; exact List.mem_cons_self _ _, by rw [heq]; rfl, rfl⟩

/-- The result of `FindStringSubmatch`, when not nil, is the match found at the first
position of the input where the pattern matches. -/
theorem find_eq_cons (re : Regexp) (body : List Char) (m : List (List Char))
    (h : FindStringSubmatch re body = m) (hne : m ≠ []) :
    ∃ pre inp, body = pre ++ inp ∧ matchHere re inp = some m := by
  induction body with
  | nil =>
    simp only [FindStringSubmatch] at h
    cases hm : matchHere re [] with
    | none => rw [hm] at h; simp at h; exact absurd h hne
    | some m0 =>
      rw [hm] at h; simp at h; subst h
      exact ⟨[], [], rfl, hm⟩
  | cons x xs ih =>
    simp only [FindStringSubmatch] at h
    cases hm : matchHere re (x :: xs) with
    | none =>
      rw [hm] at h
      obtain ⟨pre, inp, h1, h2⟩ := ih h
      exact ⟨x :: pre, inp, by simp [h1], h2⟩
    | some m0 =>
      rw [hm] at h; simp only at h; subst h
      exact ⟨[], x :: xs, rfl, hm⟩

theorem find_eq_nil (re : Regexp) (body : List Char)
    (h : FindStringSubmatch re body = []) :
    ∀ pre inp, body = pre ++ inp → matchHere re inp = none := by
  have key : ∀ t, matchHere re t ≠ some [] := by
    intro t ht
    obtain ⟨_, _, _, h2⟩ := matchHere_eq_some re t [] ht
    cases h2
  induction body with
  | nil =>
    intro pre inp hp
    have : inp = [] := by
      cases pre with
      | nil => simpa using hp.symm
      | cons _ _ => cases hp
    subst this
    simp only [FindStringSubmatch] at h
    cases hm : matchHere re [] with
    | none => rfl
    | some m0 => rw [hm] at h; simp at h; subst h; exact absurd hm (key _)
  | cons x xs ih =>
    simp only [FindStringSubmatch] at h
    cases hm : matchHere re (x :: xs) with
    | some m0 => rw [hm] at h; simp only at h; subst h; exact absurd hm (key _)
    | none =>
      rw [hm] at h
      intro pre inp hp
      cases pre with
      | nil => simp only [List.nil_append] at hp; rw [← hp]; exact hm
      | cons y ys =>
        simp only [List.cons_append, List.cons.injEq] at hp
        exact ih h ys inp hp.2


/-- The whole match returned by `FindStringSubmatch` is a piece of the input. -/
theorem find_whole_infix (re : Regexp) (body w : List Char) (gs : List (List Char))
    (h : FindStringSubmatch re body = w :: gs) : w <:+: body := by
  obtain ⟨pre, inp, hb, hm⟩ := find_eq_cons re body _ h (by simp)
  obtain ⟨t, ht, _, he⟩ := matchHere_eq_some re inp _ hm
  have hs := matchItems_sound re inp t ht
  simp only [List.cons.injEq] at he
  exact ⟨pre, t.2.2, by rw [hb, hs, he.1, List.append_assoc]⟩

/-- Every match listed for a pattern has one group per capture group of the pattern. -/
theorem matchItems_groups (re : Regexp) (inp : List Char)
    (m : List Char × List (List Char) × List Char) (h : m ∈ matchItems re inp) :
    m.2.1.length = NumSubexp re := by
  induction re generalizing inp m with
  | nil =>
    simp only [matchItems, List.mem_singleton] at h
    subst h; rfl
  | cons it re ih =>
    cases it with
    | atom a =>
      obtain ⟨m1, _, m2, h2, rfl⟩ := (mem_matchItems_atom a re inp m).1 h
      simpa [NumSubexp] using ih m1.2 m2 h2
    | group as =>
      obtain ⟨m1, _, m2, h2, rfl⟩ := (mem_matchItems_group as re inp m).1 h
      simpa [NumSubexp] using ih m1.2 m2 h2

/-- The slice returned by `FindStringSubmatch` is nil or has one entry for the whole
match and one per capture group. -/
theorem find_length (re : Regexp) (body : List Char) :
    FindStringSubmatch re body = [] ∨
      (FindStringSubmatch re body).length = NumSubexp re + 1 := by
  by_cases hne : FindStringSubmatch re body = []
  · exact Or.inl hne
  · right
    obtain ⟨pre, inp, _, hm⟩ := find_eq_cons re body _ rfl hne
    obtain ⟨t, ht, _, he⟩ := matchHere_eq_some re inp _ hm
    rw [he, List.length_cons, matchItems_groups re inp t ht]

theorem matchHere_eq_none (re : Regexp) (inp : List Char) :
    matchHere re inp = none ↔ matchItems re inp = [] := by
  unfold matchHere
  cases matchItems re inp with
  | nil => simp
  | cons t ts => simp

/-- A pattern that is one literal matches exactly the strings that contain it. -/
theorem matchString_lit (s body : List Char) :
    MatchString [.atom (.lit s)] body = true ↔ s <:+: body := by
  unfold MatchString
  constructor
  · intro h
    have hne : FindStringSubmatch [.atom (.lit s)] body ≠ [] := by
      intro h0; rw [h0] at h; simp at h
    obtain ⟨pre, inp, hb, hm⟩ := find_eq_cons _ body _ rfl hne
    obtain ⟨t, ht, _, _⟩ := matchHere_eq_some _ inp _ hm
    obtain ⟨m1, h1, _, _, _⟩ := (mem_matchItems_atom _ _ inp t).1 ht
    obtain ⟨_, h2⟩ := (mem_matches_lit s inp m1).1 h1
    exact ⟨pre, m1.2, by rw [hb, h2, List.append_assoc]⟩
  · rintro ⟨pre, post, hb⟩
    cases hf : FindStringSubmatch [.atom (.lit s)] body with
    | cons a b => rfl
    | nil =>
      exfalso
      have hn := find_eq_nil _ body hf pre (s ++ post) (by rw [← hb, List.append_assoc])
      rw [matchHere_eq_none] at hn
      have hmem : (s ++ [], ([] : List (List Char)), post) ∈
          matchItems [.atom (.lit s)] (s ++ post) := by
        rw [mem_matchItems_atom]
        refine ⟨(s, post), (mem_matches_lit s _ _).2 ⟨rfl, rfl⟩, ([], [], post), ?_, rfl⟩
        simp [matchItems]
      rw [hn] at hmem
      cases hmem

/-- The privacy test is containment of the marker. -/
theorem private_iff (body : List Char) :
    MatchString privateRegex body = true ↔
      "THIS PLAYER PROFILE IS PRIVATE".toList <:+: body :=
  matchString_lit _ body

/-- What `(.*?);` matches after the literal: with the text matched so far in `acc`,
the first way to continue is up to the first semicolon, which no newline precedes. -/
theorem lazy_semi_head (r acc : List Char) (m : List Char × List (List Char) × List Char)
    (h : ((lazySplits .dot r).flatMap (fun m1 =>
      (matchItems [.atom (.lit [';'])] m1.2).map
        (fun m2 => ((acc ++ m1.1) ++ m2.1, (acc ++ m1.1) :: m2.2.1, m2.2.2)))).head? = some m) :
    ∃ J post, r = J ++ ';' :: post ∧ ';' ∉ J ∧ '\n' ∉ J ∧
      m = ((acc ++ J) ++ [';'], [acc ++ J], post) := by
  induction r generalizing acc with
  | nil =>
    simp [lazySplits, matchItems, Atom.matches, stripPrefix] at h
  | cons x xs ih =>
    by_cases hx : x = ';'
    · subst hx
      simp [lazySplits, matchItems, Atom.matches, stripPrefix] at h
      exact ⟨[], xs, rfl, by simp, by simp, by simp [← h]⟩
    · have hsemi : stripPrefix [';'] (x :: xs) = none := by
        simp [stripPrefix, Ne.symm hx]
      by_cases hnl : x = '\n'
      · subst hnl
        simp [lazySplits, matchItems, Atom.matches, hsemi, CharClass.mem] at h
      · have hmem : CharClass.dot.mem x = true := by simp [CharClass.mem, hnl]
        simp only [lazySplits, hmem, if_true, List.flatMap_cons, matchItems, Atom.matches,
          hsemi, List.flatMap_nil, List.map_nil, List.nil_append, List.flatMap_map] at h
        have h2 : ((lazySplits .dot xs).flatMap (fun m1 =>
            (matchItems [.atom (.lit [';'])] m1.2).map
              (fun m2 => (((acc ++ [x]) ++ m1.1) ++ m2.1, ((acc ++ [x]) ++ m1.1) :: m2.2.1,
                m2.2.2)))).head? = some m := by
          simpa [matchItems, Atom.matches] using h
        obtain ⟨J, post, h1, h3, h4, h5⟩ := ih (acc ++ [x]) h2
        refine ⟨x :: J, post, by simp [h1], ?_, ?_, by simp [h5]⟩
        · simp only [List.mem_cons, not_or]; exact ⟨Ne.symm hx, h3⟩
        · simp only [List.mem_cons, not_or]; exact ⟨Ne.symm hnl, h4⟩

/-- The match of `lit(.*?);` at the head of the input. -/
theorem lazyAssign_here (lit inp : List Char) (m : List (List Char))
    (h : matchHere (lazyAssign lit) inp = some m) :
    ∃ J post, inp = lit ++ J ++ ';' :: post ∧ ';' ∉ J ∧ '\n' ∉ J ∧
      m = [lit ++ J ++ [';'], J] := by
  obtain ⟨t, _, hh, hm⟩ := matchHere_eq_some _ inp m h
  cases hs : stripPrefix lit inp with
  | none =>
    simp [lazyAssign, matchItems, Atom.matches, hs] at hh
  | some r =>
    have hinp := (stripPrefix_eq_some lit inp r).1 hs
    have e1 : matchAtoms [.lazyStar .dot] r = lazySplits .dot r := by
      simp [matchAtoms, Atom.matches]
    have e2 : matchItems (lazyAssign lit) inp =
        ((lazySplits .dot r).flatMap (fun m1 =>
          (matchItems [.atom (.lit [';'])] m1.2).map
            (fun m2 => (([] ++ m1.1) ++ m2.1, ([] ++ m1.1) :: m2.2.1, m2.2.2)))).map
          (fun m2 => (lit ++ m2.1, m2.2.1, m2.2.2)) := by
      rw [lazyAssign]
      rw [matchItems]
      simp only [Atom.matches, hs, List.flatMap_cons, List.flatMap_nil, List.append_nil]
      rw [matchItems, e1]
      simp only [List.nil_append]
    rw [e2, List.head?_map] at hh
    cases hh0 : ((lazySplits .dot r).flatMap (fun m1 =>
          (matchItems [.atom (.lit [';'])] m1.2).map
            (fun m2 => (([] ++ m1.1) ++ m2.1, ([] ++ m1.1) :: m2.2.1, m2.2.2)))).head? with
    | none => rw [hh0] at hh; cases hh
    | some t0 =>
      rw [hh0] at hh
      simp only [Option.map_some', Option.some.injEq] at hh
      obtain ⟨J, post, h1, h2, h3, h4⟩ := lazy_semi_head r [] t0 hh0
      refine ⟨J, post, by rw [hinp, h1, List.append_assoc], h2, h3, ?_⟩
      rw [hm, ← hh, h4]
      simp

/-- The result of `FindStringSubmatch` for `lit(.*?);`: the text between the literal
and the first semicolon after it, on one line. -/
theorem lazyAssign_find (lit body : List Char) (hne : FindStringSubmatch (lazyAssign lit) body ≠ []) :
    ∃ pre J post, body = pre ++ lit ++ J ++ ';' :: post ∧ ';' ∉ J ∧ '\n' ∉ J ∧
      FindStringSubmatch (lazyAssign lit) body = [lit ++ J ++ [';'], J] := by
  obtain ⟨pre, inp, hb, hm⟩ := find_eq_cons _ body _ rfl hne
  obtain ⟨J, post, h1, h2, h3, h4⟩ := lazyAssign_here lit inp _ hm
  exact ⟨pre, J, post, by rw [hb, h1]; simp, h2, h3, h4⟩

theorem winsRegex_eq : winsRegex = lazyAssign "var profileDataWins = ".toList := rfl

theorem currentRegex_eq : currentRegex = lazyAssign "var profileDataCurrent = ".toList := rfl

/-- The match of `mmrRegex` at the head of the input: a digit, then digits and commas,
then the literal ` MMR`. -/
theorem mmr_here (inp : List Char) (m : List (List Char))
    (h : matchHere mmrRegex inp = some m) :
    ∃ d run post, inp = d :: run ++ " MMR".toList ++ post ∧ d.isDigit = true ∧
      (∀ x ∈ run, x.isDigit = true ∨ x = ',') ∧
      m = [d :: run ++ " MMR".toList, d :: run] := by
  obtain ⟨t, ht, _, hm⟩ := matchHere_eq_some _ inp m h
  rw [mmrRegex, mem_matchItems_group] at ht
  obtain ⟨m1, h1, m2, h2, rfl⟩ := ht
  rw [mem_matchAtoms_cons] at h1
  obtain ⟨a1, ha1, a2, ha2, rfl⟩ := h1
  obtain ⟨d, hd, hd1, hd2⟩ := (mem_matches_one _ _ _).1 ha1
  rw [mem_matchAtoms_cons] at ha2
  obtain ⟨a3, ha3, a4, ha4, rfl⟩ := ha2
  simp only [matchAtoms, List.mem_singleton] at ha4
  obtain ⟨hs1, hs2⟩ := mem_greedySplits _ _ _ ha3
  rw [mem_matchItems_atom] at h2
  obtain ⟨b1, hb1, b2, hb2, rfl⟩ := h2
  obtain ⟨hl1, hl2⟩ := (mem_matches_lit _ _ _).1 hb1
  simp only [matchItems, List.mem_singleton] at hb2
  subst ha4 hb2
  simp only at hl2 hm ⊢
  refine ⟨d, a3.1, b1.2, ?_, by simpa [CharClass.mem] using hd, ?_, ?_⟩
  · rw [hd2, hs1, hl2]; simp
  · intro x hx
    have := hs2 x hx
    simpa [CharClass.mem] using this
  · rw [hm, hd1, hl1]; simp


/-! ## More on the patterns: leftmost matches, the rating marker, `Atoi` -/

/-- The match returned by `FindStringSubmatch` starts at the first position where the
pattern matches. -/
theorem find_first (re : Regexp) (body : List Char)
    (hne : FindStringSubmatch re body ≠ []) :
    ∃ pre inp, body = pre ++ inp ∧ matchHere re inp = some (FindStringSubmatch re body) ∧
      ∀ pre2 inp2, body = pre2 ++ inp2 → pre2.length < pre.length →
        matchHere re inp2 = none := by
  induction body with
  | nil =>
    obtain ⟨pre, inp, hb, hm⟩ := find_eq_cons re [] _ rfl hne
    have hpre : pre = [] := (List.append_eq_nil.1 hb.symm).1
    subst hpre
    exact ⟨[], inp, hb, hm, fun _ _ _ hlt => absurd hlt (Nat.not_lt_zero _)⟩
  | cons x xs ih =>
    cases hm : matchHere re (x :: xs) with
    | some m0 =>
      have hf : FindStringSubmatch re (x :: xs) = m0 := by
        simp only [FindStringSubmatch, hm]
      exact ⟨[], x :: xs, rfl, by rw [hf]; exact hm,
        fun _ _ _ hlt => absurd hlt (Nat.not_lt_zero _)⟩
    | none =>
      have hf : FindStringSubmatch re (x :: xs) = FindStringSubmatch re xs := by
        simp only [FindStringSubmatch, hm]
      rw [hf] at hne ⊢
      obtain ⟨pre, inp, hb, hm2, hfirst⟩ := ih hne
      refine ⟨x :: pre, inp, by rw [hb]; rfl, hm2, ?_⟩
      intro pre2 inp2 hb2 hlt
      cases pre2 with
      | nil =>
        simp only [List.nil_append] at hb2
        rw [← hb2]; exact hm
      | cons y ys =>
        simp only [List.cons_append, List.cons.injEq] at hb2
        exact hfirst ys inp2 hb2.2 (by simpa using hlt)

theorem nil_mem_greedySplits (c : CharClass) (inp : List Char) :
    ([], inp) ∈ greedySplits c inp := by
  cases inp with
  | nil => simp [greedySplits]
  | cons x xs => simp [greedySplits]

theorem mem_greedySplits_of (c : CharClass) (run rest : List Char)
    (h : ∀ x ∈ run, c.mem x = true) : (run, rest) ∈ greedySplits c (run ++ rest) := by
  induction run with
  | nil => exact nil_mem_greedySplits c rest
  | cons x run ih =>
    have hx : c.mem x = true := h x (List.mem_cons_self _ _)
    have hr := ih (fun y hy => h y (List.mem_cons_of_mem _ hy))
    simp only [List.cons_append, greedySplits, hx, if_true, List.mem_append, List.mem_map]
    exact Or.inl ⟨(run, rest), hr, rfl⟩

/-- The pattern `mmrRegex` matches at every rating marker. -/
theorem mmr_here_of (d : Char) (run post : List Char) (hd : d.isDigit = true)
    (hrun : ∀ x ∈ run, x.isDigit = true ∨ x = ',') :
    matchHere mmrRegex (d :: run ++ " MMR".toList ++ post) ≠ none := by
  intro hnone
  rw [matchHere_eq_none] at hnone
  have hmem : ((d :: run) ++ " MMR".toList, [d :: run], post) ∈
      matchItems mmrRegex (d :: run ++ " MMR".toList ++ post) := by
    rw [mmrRegex, mem_matchItems_group]
    refine ⟨(d :: run, " MMR".toList ++ post), ?_, (" MMR".toList, [], post), ?_, rfl⟩
    · rw [mem_matchAtoms_cons]
      refine ⟨([d], run ++ (" MMR".toList ++ post)), ?_, (run, " MMR".toList ++ post), ?_, rfl⟩
      · rw [mem_matches_one]
        exact ⟨d, by simpa [CharClass.mem] using hd, rfl, by simp⟩
      · rw [mem_matchAtoms_cons]
        refine ⟨(run, " MMR".toList ++ post), ?_, ([], " MMR".toList ++ post), ?_, by simp⟩
        · apply mem_greedySplits_of
          intro x hx
          simpa [CharClass.mem] using hrun x hx
        · simp [matchAtoms]
    · rw [mem_matchItems_atom]
      refine ⟨(" MMR".toList, post), (mem_matches_lit _ _ _).2 ⟨rfl, rfl⟩, ([], [], post), ?_,
        by simp⟩
      simp [matchItems]
  rw [hnone] at hmem
  cases hmem

/-- A rating marker anywhere in the body makes `mmrRegex` match, at or before it. -/
theorem mmr_find_of (body pre : List Char) (d : Char) (run post : List Char)
    (hb : body = pre ++ (d :: run ++ " MMR".toList) ++ post) (hd : d.isDigit = true)
    (hrun : ∀ x ∈ run, x.isDigit = true ∨ x = ',') :
    ∃ pre1 d1 run1 post1, body = pre1 ++ (d1 :: run1 ++ " MMR".toList) ++ post1 ∧
      pre1.length ≤ pre.length ∧ d1.isDigit = true ∧
      (∀ x ∈ run1, x.isDigit = true ∨ x = ',') ∧
      FindStringSubmatch mmrRegex body = [d1 :: run1 ++ " MMR".toList, d1 :: run1] := by
  have hb2 : body = pre ++ (d :: run ++ " MMR".toList ++ post) := by
    rw [hb]; simp
  have hne : FindStringSubmatch mmrRegex body ≠ [] := by
    intro h0
    exact mmr_here_of d run post hd hrun (find_eq_nil _ body h0 pre _ hb2)
  obtain ⟨pre1, inp, hb1, hm, hfirst⟩ := find_first mmrRegex body hne
  obtain ⟨d1, run1, post1, h1, h2, h3, h4⟩ := mmr_here inp _ hm
  refine ⟨pre1, d1, run1, post1, by rw [hb1, h1]; simp, ?_, h2, h3, h4⟩
  by_contra hlt
  exact mmr_here_of d run post hd hrun (hfirst pre _ hb2 (by omega))

/-- On a string that does not start with a sign, `Atoi` succeeds only with the value of
its digits. -/
theorem atoi_unsigned (s : List Char) (v : Int) (h : Atoi s = some v)
    (hm : s.head? ≠ some '-') (hp : s.head? ≠ some '+') :
    v = (digitsValue s : Int) ∧ s ≠ [] ∧ (∀ c ∈ s, c.isDigit = true) ∧
      digitsValue s < 2 ^ 63 := by
  unfold Atoi at h
  simp only [hm, hp, or_self, if_false, decide_False, Bool.false_eq_true] at h
  split at h
  · cases h
  · rename_i hc
    split at h
    · rename_i hlt
      simp only [Option.some.injEq] at h
      simp only [Bool.or_eq_true, List.isEmpty_iff, Bool.not_eq_true', not_or,
        Bool.not_eq_false, List.all_eq_true] at hc
      exact ⟨h.symm, hc.1, hc.2, hlt⟩
    · cases h

/-- Stripping the commas of a matched rating group leaves an unsigned digit string. -/
theorem stripCommas_group (d : Char) (run : List Char) (hd : d.isDigit = true) :
    (stripCommas (d :: run)).head? = some d := by
  have hne : d ≠ ',' := by
    intro hc; rw [hc] at hd; revert hd; decide
  simp [stripCommas, List.filter_cons, hne]


/-! ## Lemmas on the fetch task -/

theorem index_eq_ok (m : List (List Char)) (i : Nat) (g : List Char)
    (h : index m i = .ok g) : m.get? i = some g := by
  unfold index at h
  split at h
  · rename_i x hx; cases h; exact hx
  · cases h

theorem checkError_eq_ok {α : Type} (r : Option α) (a : α) (h : checkError r = .ok a) :
    r = some a := by
  unfold checkError at h
  split at h
  · cases h; rfl
  · cases h

/-- A guarded parse of one numeric field: what a normal end says. -/
theorem gated_ok (gate : Bool) (p q : Player) (m : List (List Char))
    (parse : List Char → Option Int) (set : Player → Int → Player)
    (h : (if gate = true then
            (index m 1 >>= fun g => checkError (parse g) >>= fun v => pure (set p v))
          else (pure p : Outcome Player)) = .ok q) :
    (gate = false ∧ q = p) ∨
      (gate = true ∧ ∃ g v, m.get? 1 = some g ∧ parse g = some v ∧ q = set p v) := by
  cases gate with
  | false => left; simp at h; exact ⟨rfl, h.symm⟩
  | true =>
    right
    simp only [if_true] at h
    obtain ⟨g, hg, h2⟩ := bind_eq_ok h
    obtain ⟨v, hv, h3⟩ := bind_eq_ok h2
    simp only [pure_eq_ok, Outcome.ok.injEq] at h3
    exact ⟨rfl, g, v, index_eq_ok _ _ _ hg, checkError_eq_ok _ _ hv, h3.symm⟩

theorem parseMMR_ok (p q : Player) (mmrMatch : List (List Char))
    (h : parseMMR p mmrMatch = .ok q) :
    (¬ 1 < mmrMatch.length ∧ q = p) ∨
      (1 < mmrMatch.length ∧ ∃ g v, mmrMatch.get? 1 = some g ∧
        Atoi (stripCommas g) = some v ∧ q = { p with MMR := v }) := by
  have := gated_ok (decide (1 < mmrMatch.length)) p q mmrMatch
    (fun g => Atoi (stripCommas g)) (fun p v => { p with MMR := v })
    (by simpa [parseMMR] using h)
  simpa using this

theorem parseLosses_ok (p q : Player) (mmrMatch lossesMatch : List (List Char))
    (h : parseLosses p mmrMatch lossesMatch = .ok q) :
    (¬ 1 < mmrMatch.length ∧ q = p) ∨
      (1 < mmrMatch.length ∧ ∃ g v, lossesMatch.get? 1 = some g ∧
        Atoi (stripCommas g) = some v ∧ q = { p with Losses := v }) := by
  have := gated_ok (decide (1 < mmrMatch.length)) p q lossesMatch
    (fun g => Atoi (stripCommas g)) (fun p v => { p with Losses := v })
    (by simpa [parseLosses] using h)
  simpa using this

theorem parseDraws_ok (p q : Player) (mmrMatch drawsMatch : List (List Char))
    (h : parseDraws p mmrMatch drawsMatch = .ok q) :
    (¬ 1 < mmrMatch.length ∧ q = p) ∨
      (1 < mmrMatch.length ∧ ∃ g v, drawsMatch.get? 1 = some g ∧
        Atoi (stripCommas g) = some v ∧ q = { p with Draws := v }) := by
  have := gated_ok (decide (1 < mmrMatch.length)) p q drawsMatch
    (fun g => Atoi (stripCommas g)) (fun p v => { p with Draws := v })
    (by simpa [parseDraws] using h)
  simpa using this

theorem parseRank_ok (p q : Player) (mmrMatch rankMatch : List (List Char))
    (h : parseRank p mmrMatch rankMatch = .ok q) :
    (¬ 1 < mmrMatch.length ∧ q = p) ∨
      (1 < mmrMatch.length ∧ ∃ g v, rankMatch.get? 1 = some g ∧
        Atoi g = some v ∧ q = { p with Rank := v }) := by
  have := gated_ok (decide (1 < mmrMatch.length)) p q rankMatch
    (fun g => Atoi g) (fun p v => { p with Rank := v })
    (by simpa [parseRank] using h)
  simpa using this

theorem parsePrestige_ok (p q : Player) (prestigeMatch : List (List Char))
    (h : parsePrestige p prestigeMatch = .ok q) :
    (¬ 1 < prestigeMatch.length ∧ q = p) ∨
      (1 < prestigeMatch.length ∧ ∃ g1 v1 g2 v2, prestigeMatch.get? 1 = some g1 ∧
        Atoi g1 = some v1 ∧ prestigeMatch.get? 2 = some g2 ∧ Atoi g2 = some v2 ∧
        q = { p with Prestige := v1, Level := v2 }) := by
  unfold parsePrestige at h
  by_cases hg : 1 < prestigeMatch.length
  · right
    simp only [gt_iff_lt, hg, if_true] at h
    obtain ⟨g1, hg1, h2⟩ := bind_eq_ok h
    obtain ⟨v1, hv1, h3⟩ := bind_eq_ok h2
    obtain ⟨g2, hg2, h4⟩ := bind_eq_ok h3
    obtain ⟨v2, hv2, h5⟩ := bind_eq_ok h4
    simp only [pure_eq_ok, Outcome.ok.injEq] at h5
    exact ⟨hg, g1, v1, g2, v2, index_eq_ok _ _ _ hg1, checkError_eq_ok _ _ hv1,
      index_eq_ok _ _ _ hg2, checkError_eq_ok _ _ hv2, h5.symm⟩
  · left
    simp only [gt_iff_lt, hg, if_false, pure_eq_ok, Outcome.ok.injEq] at h
    exact ⟨hg, h.symm⟩


/-- What a normal end of the numeric-field stage says about every field. -/
theorem numericFields_ok (p q : Player) (body : List Char)
    (h : numericFields p body = .ok q) :
    q.Current = p.Current ∧ q.Total = p.Total ∧ q.Id = p.Id ∧
    (¬ 1 < (FindStringSubmatch mmrRegex body).length →
      q.MMR = p.MMR ∧ q.Losses = p.Losses ∧ q.Draws = p.Draws ∧ q.Rank = p.Rank) ∧
    (1 < (FindStringSubmatch mmrRegex body).length →
      (∃ g, (FindStringSubmatch mmrRegex body).get? 1 = some g ∧
        Atoi (stripCommas g) = some q.MMR) ∧
      (∃ g, (FindStringSubmatch lossesRegex body).get? 1 = some g ∧
        Atoi (stripCommas g) = some q.Losses) ∧
      (∃ g, (FindStringSubmatch drawsRegex body).get? 1 = some g ∧
        Atoi (stripCommas g) = some q.Draws) ∧
      (∃ g, (FindStringSubmatch rankRegex body).get? 1 = some g ∧
        Atoi g = some q.Rank)) ∧
    (¬ 1 < (FindStringSubmatch prestigeRegex body).length →
      q.Prestige = p.Prestige ∧ q.Level = p.Level) ∧
    (1 < (FindStringSubmatch prestigeRegex body).length →
      ∃ g1 g2, (FindStringSubmatch prestigeRegex body).get? 1 = some g1 ∧
        (FindStringSubmatch prestigeRegex body).get? 2 = some g2 ∧
        Atoi g1 = some q.Prestige ∧ Atoi g2 = some q.Level) := by
  unfold numericFields at h
  obtain ⟨p1, h1, h⟩ := bind_eq_ok h
  obtain ⟨p2, h2, h⟩ := bind_eq_ok h
  obtain ⟨p3, h3, h⟩ := bind_eq_ok h
  obtain ⟨p4, h4, h5⟩ := bind_eq_ok h
  have k1 := parseMMR_ok _ _ _ h1
  have k2 := parseLosses_ok _ _ _ _ h2
  have k3 := parseDraws_ok _ _ _ _ h3
  have k4 := parseRank_ok _ _ _ _ h4
  have k5 := parsePrestige_ok _ _ _ h5
  by_cases hm : 1 < (FindStringSubmatch mmrRegex body).length
  · obtain ⟨g1, v1, e1, a1, rfl⟩ := k1.resolve_left (fun c => c.1 hm) |>.2
    obtain ⟨g2, v2, e2, a2, rfl⟩ := k2.resolve_left (fun c => c.1 hm) |>.2
    obtain ⟨g3, v3, e3, a3, rfl⟩ := k3.resolve_left (fun c => c.1 hm) |>.2
    obtain ⟨g4, v4, e4, a4, rfl⟩ := k4.resolve_left (fun c => c.1 hm) |>.2
    rcases k5 with ⟨hp, rfl⟩ | ⟨hp, g5, v5, g6, v6, e5, a5, e6, a6, rfl⟩
    · refine ⟨rfl, rfl, rfl, fun c => absurd hm c, fun _ => ⟨⟨g1, e1, a1⟩, ⟨g2, e2, a2⟩,
        ⟨g3, e3, a3⟩, ⟨g4, e4, a4⟩⟩, fun _ => ⟨rfl, rfl⟩, fun c => absurd c hp⟩
    · refine ⟨rfl, rfl, rfl, fun c => absurd hm c, fun _ => ⟨⟨g1, e1, a1⟩, ⟨g2, e2, a2⟩,
        ⟨g3, e3, a3⟩, ⟨g4, e4, a4⟩⟩, fun c => absurd hp c, fun _ => ⟨g5, g6, e5, e6, a5, a6⟩⟩
  · obtain ⟨_, rfl⟩ := k1.resolve_right (fun c => hm c.1)
    obtain ⟨_, rfl⟩ := k2.resolve_right (fun c => hm c.1)
    obtain ⟨_, rfl⟩ := k3.resolve_right (fun c => hm c.1)
    obtain ⟨_, rfl⟩ := k4.resolve_right (fun c => hm c.1)
    rcases k5 with ⟨hp, rfl⟩ | ⟨hp, g5, v5, g6, v6, e5, a5, e6, a6, rfl⟩
    · exact ⟨rfl, rfl, rfl, fun _ => ⟨rfl, rfl, rfl, rfl⟩, fun c => absurd c hm,
        fun _ => ⟨rfl, rfl⟩, fun c => absurd c hp⟩
    · exact ⟨rfl, rfl, rfl, fun _ => ⟨rfl, rfl, rfl, rfl⟩, fun c => absurd c hm,
        fun c => absurd hp c, fun _ => ⟨g5, g6, e5, e6, a5, a6⟩⟩

/-- What a normal end of the JSON stage says. -/
theorem decodeStats_ok (env : Env) (p q : Player) (body : List Char)
    (h : decodeStats env p body = .ok q) :
    ∃ J J2, (FindStringSubmatch winsRegex body).get? 1 = some J ∧
      env.Unmarshal J p.Total = some q.Total ∧
      (FindStringSubmatch currentRegex body).get? 1 = some J2 ∧
      env.Unmarshal J2 p.Current = some q.Current ∧
      q = { p with Total := q.Total, Current := q.Current } := by
  unfold decodeStats at h
  obtain ⟨J, hJ, h⟩ := bind_eq_ok h
  obtain ⟨t, ht, h⟩ := bind_eq_ok h
  obtain ⟨J2, hJ2, h⟩ := bind_eq_ok h
  obtain ⟨c, hc, h⟩ := bind_eq_ok h
  simp only [pure_eq_ok, Outcome.ok.injEq] at h
  subst h
  exact ⟨J, J2, index_eq_ok _ _ _ hJ, checkError_eq_ok _ _ ht, index_eq_ok _ _ _ hJ2,
    checkError_eq_ok _ _ hc, rfl⟩

/-- No stage of the fetch task changes the identifier of its record. -/
theorem fetchTask_id (env : Env) (p q : Player) (h : fetchTask env p = .ok q) :
    q.Id = p.Id := by
  unfold fetchTask at h
  split at h
  · cases h
  · rename_i status body _
    split at h
    · split at h
      · cases h
      · rename_i bodyString
        unfold processBody at h
        split at h
        · cases h; rfl
        · unfold extract at h
          obtain ⟨p1, h1, h2⟩ := bind_eq_ok h
          obtain ⟨_, _, _, _, _, _, e⟩ := decodeStats_ok env p p1 _ h1
          have := (numericFields_ok p1 q _ h2).2.2.1
          rw [this, e]
    · cases h; rfl

theorem mmr_nonempty_iff (body : List Char) :
    FindStringSubmatch mmrRegex body ≠ [] ↔ 1 < (FindStringSubmatch mmrRegex body).length := by
  constructor
  · intro hne
    rcases find_length mmrRegex body with h | h
    · exact absurd h hne
    · rw [h]; decide
  · intro h h0; rw [h0] at h; cases h

theorem prestige_nonempty_iff (body : List Char) :
    FindStringSubmatch prestigeRegex body ≠ [] ↔
      1 < (FindStringSubmatch prestigeRegex body).length := by
  constructor
  · intro hne
    rcases find_length prestigeRegex body with h | h
    · exact absurd h hne
    · rw [h]; decide
  · intro h h0; rw [h0] at h; cases h

/-- With a rating match and no rank match the numeric stage never completes: the rank
is parsed under the gate of the rating. -/
theorem rating_without_rank (p q : Player) (body : List Char)
    (hm : FindStringSubmatch mmrRegex body ≠ [])
    (hr : FindStringSubmatch rankRegex body = []) : numericFields p body ≠ .ok q := by
  intro h
  obtain ⟨_, _, _, ⟨g, hg, _⟩⟩ :=
    (numericFields_ok p q body h).2.2.2.2.1 ((mmr_nonempty_iff body).1 hm)
  rw [hr] at hg
  cases hg

/-- A matched fragment that does not decode ends the extraction in `log.Fatal`, when
the fragments before it are matched and decode. -/
theorem decode_failure_fatal (env : Env) (p : Player) (body J : List Char)
    (hm : (FindStringSubmatch winsRegex body).get? 1 = some J) :
    (env.Unmarshal J p.Total = none → extract env p body = .fatal) ∧
    (∀ t J2, env.Unmarshal J p.Total = some t →
      (FindStringSubmatch currentRegex body).get? 1 = some J2 →
      env.Unmarshal J2 p.Current = none → extract env p body = .fatal) := by
  have hm1 : (FindStringSubmatch winsRegex body)[1]? = some J := by simpa using hm
  constructor
  · intro hd
    simp [extract, decodeStats, index, hm1, hd, checkError]
  · intro t J2 hd hm2 hd2
    have hm3 : (FindStringSubmatch currentRegex body)[1]? = some J2 := by simpa using hm2
    simp [extract, decodeStats, index, hm1, hd, hm3, hd2, checkError]

/-- The numeric stage completes when the rating pattern does not match, or matches
together with the losses, draws and rank patterns and the four digit groups are
integers; and the prestige/level pattern does not match, or matches with two digit
groups that are integers. -/
theorem numericFields_completes (p : Player) (body : List Char)
    (hM : FindStringSubmatch mmrRegex body = [] ∨
      ∃ gm vm gl vl gd vd gr vr,
        (FindStringSubmatch mmrRegex body).get? 1 = some gm ∧
        Atoi (stripCommas gm) = some vm ∧
        (FindStringSubmatch lossesRegex body).get? 1 = some gl ∧
        Atoi (stripCommas gl) = some vl ∧
        (FindStringSubmatch drawsRegex body).get? 1 = some gd ∧
        Atoi (stripCommas gd) = some vd ∧
        (FindStringSubmatch rankRegex body).get? 1 = some gr ∧ Atoi gr = some vr)
    (hP : FindStringSubmatch prestigeRegex body = [] ∨
      ∃ g1 v1 g2 v2,
        (FindStringSubmatch prestigeRegex body).get? 1 = some g1 ∧ Atoi g1 = some v1 ∧
        (FindStringSubmatch prestigeRegex body).get? 2 = some g2 ∧ Atoi g2 = some v2) :
    ∃ q, numericFields p body = .ok q := by
  have hPre : ∀ r : Player, ∃ q,
      parsePrestige r (FindStringSubmatch prestigeRegex body) = .ok q := by
    intro r
    rcases hP with h0 | ⟨g1, v1, g2, v2, e1, a1, e2, a2⟩
    · exact ⟨r, by simp [parsePrestige, h0]⟩
    · have hlen : 1 < (FindStringSubmatch prestigeRegex body).length :=
        (List.get?_eq_some.1 e1).1
      have e1' : (FindStringSubmatch prestigeRegex body)[1]? = some g1 := by simpa using e1
      have e2' : (FindStringSubmatch prestigeRegex body)[2]? = some g2 := by simpa using e2
      exact ⟨{ r with Prestige := v1, Level := v2 },
        by simp [parsePrestige, hlen, index, e1', e2', a1, a2, checkError]⟩
  rcases hM with h0 | ⟨gm, vm, gl, vl, gd, vd, gr, vr, em, am, el, al, ed, ad, er, ar⟩
  · obtain ⟨q, hq⟩ := hPre p
    exact ⟨q, by simp [numericFields, parseMMR, parseLosses, parseDraws, parseRank, h0, hq]⟩
  · have hlen : 1 < (FindStringSubmatch mmrRegex body).length :=
      (List.get?_eq_some.1 em).1
    have em' : (FindStringSubmatch mmrRegex body)[1]? = some gm := by simpa using em
    have el' : (FindStringSubmatch lossesRegex body)[1]? = some gl := by simpa using el
    have ed' : (FindStringSubmatch drawsRegex body)[1]? = some gd := by simpa using ed
    have er' : (FindStringSubmatch rankRegex body)[1]? = some gr := by simpa using er
    obtain ⟨q, hq⟩ := hPre { p with MMR := vm, Losses := vl, Draws := vd, Rank := vr }
    exact ⟨q, by
      simp [numericFields, parseMMR, parseLosses, parseDraws, parseRank, hlen, index,
        em', el', ed', er', am, al, ad, ar, checkError, hq]⟩

/-- Lines 100-104 index the two fragment matches without a guard: on every public page
on which the lifetime pattern does not match, or on which it captures a text that
decodes and the current-season pattern does not match, the extraction ends in an
index-out-of-range error. -/
theorem absent_fragment_outOfRange (env : Env) (p : Player) (body : List Char)
    (hp : MatchString privateRegex body = false)
    (h : FindStringSubmatch winsRegex body = [] ∨
      (∃ J t, (FindStringSubmatch winsRegex body).get? 1 = some J ∧
        env.Unmarshal J p.Total = some t) ∧
      FindStringSubmatch currentRegex body = []) :
    processBody env p body = .outOfRange := by
  rcases h with h0 | ⟨⟨J, t, hJ, ht⟩, h0⟩
  · simp [processBody, hp, extract, decodeStats, h0, index]
  · have hJ2 : (FindStringSubmatch winsRegex body)[1]? = some J := by simpa using hJ
    simp [processBody, hp, extract, decodeStats, h0, index, hJ2, ht, checkError]

/-- On every public page on which the extraction of a new record completes, every
numeric field whose marker is absent from the body has its default: without a rating
marker MMR is 0, without a losses marker losses is 0, without a draws marker draws is
0, without a rank marker rank is 30, and without a prestige/level marker prestige and
level are 0. -/
theorem absent_markers_default (env : Env) (id : String) (q : Player) (body : List Char)
    (hp : MatchString privateRegex body = false)
    (hq : processBody env (NewPlayer id) body = .ok q) :
    (FindStringSubmatch mmrRegex body = [] → q.MMR = 0) ∧
    (FindStringSubmatch lossesRegex body = [] → q.Losses = 0) ∧
    (FindStringSubmatch drawsRegex body = [] → q.Draws = 0) ∧
    (FindStringSubmatch rankRegex body = [] → q.Rank = 30) ∧
    (FindStringSubmatch prestigeRegex body = [] → q.Prestige = 0 ∧ q.Level = 0) := by
  simp only [processBody, hp, Bool.false_eq_true, if_false] at hq
  unfold extract at hq
  obtain ⟨p1, h1, h2⟩ := bind_eq_ok hq
  obtain ⟨_, _, _, _, _, _, e⟩ := decodeStats_ok env _ p1 body h1
  obtain ⟨_, _, _, k1, k2, k3, _⟩ := numericFields_ok p1 q body h2
  have d1 : p1.MMR = 0 := by rw [e]; rfl
  have d2 : p1.Losses = 0 := by rw [e]; rfl
  have d3 : p1.Draws = 0 := by rw [e]; rfl
  have d4 : p1.Rank = 30 := by rw [e]; rfl
  have d5 : p1.Prestige = 0 := by rw [e]; rfl
  have d6 : p1.Level = 0 := by rw [e]; rfl
  by_cases hm : 1 < (FindStringSubmatch mmrRegex body).length
  · obtain ⟨_, ⟨g2, e2, _⟩, ⟨g3, e3, _⟩, ⟨g4, e4, _⟩⟩ := k2 hm
    refine ⟨fun h0 => ?_, fun h0 => ?_, fun h0 => ?_, fun h0 => ?_, fun h0 => ?_⟩
    · rw [h0] at hm; cases hm
    · rw [h0] at e2; cases e2
    · rw [h0] at e3; cases e3
    · rw [h0] at e4; cases e4
    · obtain ⟨a, b⟩ := k3 (by rw [h0]; decide)
      exact ⟨by rw [a, d5], by rw [b, d6]⟩
  · obtain ⟨a1, a2, a3, a4⟩ := k1 hm
    refine ⟨fun _ => by rw [a1, d1], fun _ => by rw [a2, d2], fun _ => by rw [a3, d3],
      fun _ => by rw [a4, d4], fun h0 => ?_⟩
    obtain ⟨a, b⟩ := k3 (by rw [h0]; decide)
    exact ⟨by rw [a, d5], by rw [b, d6]⟩

/-- On the page that has the two JSON fragments and no other marker the extraction
completes and every numeric field has its default. -/
theorem absent_markers_default_example :
    processBody exampleEnv (NewPlayer "alice") statsPage = .ok statsRecord ∧
    FindStringSubmatch mmrRegex statsPage = [] ∧
    FindStringSubmatch lossesRegex statsPage = [] ∧
    FindStringSubmatch drawsRegex statsPage = [] ∧
    FindStringSubmatch rankRegex statsPage = [] ∧
    FindStringSubmatch prestigeRegex statsPage = [] ∧
    statsRecord.MMR = 0 ∧ statsRecord.Losses = 0 ∧ statsRecord.Draws = 0 ∧
    statsRecord.Rank = 30 ∧ statsRecord.Prestige = 0 ∧ statsRecord.Level = 0 :=
  ⟨by decide, by decide, by decide, by decide, by decide, by decide,
   rfl, rfl, rfl, rfl, rfl, rfl⟩


/-! ## The orchestrator's invariant holds in every reachable state -/

theorem inv_init (env : Env) (orig : List Player) : Inv env orig (State.init orig) := by
  refine ⟨rfl, Nat.zero_le _, rfl, Nat.zero_le _, ?_, List.nodup_nil, ?_, ?_, ?_, ?_⟩
  · intro k hk; cases hk
  · intro k p h; exact ⟨p, h, rfl, by simp [State.init]⟩
  · intro h; cases h
  · intro h; cases h
  · intro _; rfl

/-- A step that changes nothing but the phase, away from `written`, keeps the
invariant. -/
theorem inv_exit (env : Env) (orig : List Player) (s : State) (hi : Inv env orig s)
    (hph : s.phase = .active) : Inv env orig { s with phase := .exited } :=
  ⟨hi.len, hi.i_le, hi.sem_eq, hi.sem_le, hi.run_lt, hi.nodup, hi.recs, hi.fill_i,
    fun hw => (by cases hw), fun _ => hi.out_none (by rw [hph]; decide)⟩

/-- Storing the record of task `k` and releasing its slot keeps the invariant, for a
normal end (`c = false`) and for a runtime error (`c = true`). -/
theorem inv_release (env : Env) (orig : List Player) (s : State) (k : Nat) (p q : Player)
    (c : Bool) (hi : Inv env orig s) (hph : s.phase = .active) (hmem : k ∈ s.running)
    (hsem : 0 < s.sem) (hp : s.players.get? k = some p) (hid : q.Id = p.Id)
    (hres : if c = true then fetchTask env p = .outOfRange else fetchTask env p = .ok q) :
    Inv env orig { s with players := s.players.set k q, running := s.running.erase k,
                          crashed := if c = true then k :: s.crashed else s.crashed,
                          sem := s.sem - 1 } := by
  have hki : k < s.i := hi.run_lt k hmem
  refine ⟨?_, hi.i_le, ?_, ?_, ?_, ?_, ?_, hi.fill_i, ?_, ?_⟩
  · simp only [List.length_set]; exact hi.len
  · have := hi.sem_eq
    have hl := List.length_erase_of_mem hmem
    have hpos : 0 < s.running.length := List.length_pos_of_mem hmem
    simp only [hl]; omega
  · have := hi.sem_le; simp only; omega
  · intro j hj
    exact hi.run_lt j (List.mem_of_mem_erase hj)
  · exact hi.nodup.erase k
  · intro j pj hj
    obtain ⟨qj, hqj, hidj, hc⟩ := hi.recs j pj hj
    by_cases hjk : j = k
    · subst hjk
      have hlen : j < s.players.length := by
        have := hi.len
        have := hi.i_le
        omega
      have hnot : j ∉ s.running.erase j := fun hm =>
        (List.Nodup.mem_erase_iff hi.nodup).1 hm |>.1 rfl
      have hold : qj = pj ∧ j ∉ s.crashed := by simpa [hmem] using hc
      have hpq : p = qj := by
        rw [hp] at hqj; exact (Option.some.inj hqj)
      have hppj : p = pj := by rw [hpq, hold.1]
      refine ⟨q, ?_, by rw [hid, hppj], ?_⟩
      · simp only [List.get?_eq_getElem?, List.getElem?_set_self hlen]
      · simp only [hki, hnot, not_false_eq_true, and_self, if_true]
        cases c with
        | true =>
          simp only [if_true, List.mem_cons, true_or]
          rw [← hppj]; simpa using hres
        | false =>
          simp only [Bool.false_eq_true, if_false, hold.2]
          rw [← hppj]; simpa using hres
    · refine ⟨qj, ?_, hidj, ?_⟩
      · simp only [List.get?_eq_getElem?] at hqj ⊢
        rw [List.getElem?_set_ne (Ne.symm hjk)]; exact hqj
      · have e1 : j ∈ s.running.erase k ↔ j ∈ s.running :=
          List.mem_erase_of_ne hjk
        have e2 : j ∈ (if c = true then k :: s.crashed else s.crashed) ↔ j ∈ s.crashed := by
          cases c with
          | true => simp [hjk]
          | false => simp
        simp only [e1, e2]; exact hc
  · intro hw; simp only at hw; rw [hph] at hw; cases hw
  · intro _; simp only; exact hi.out_none (by rw [hph]; decide)

theorem inv_step (env : Env) (orig : List Player) (s t : State) (e : Event)
    (hi : Inv env orig s) (h : step env s e = some t) : Inv env orig t := by
  cases e with
  | launch =>
    simp only [step] at h
    split at h
    · rename_i hg
      obtain ⟨hph, hlt, hsem⟩ := hg
      cases h
      refine ⟨hi.len, ?_, ?_, ?_, ?_, ?_, ?_, ?_, ?_, ?_⟩
      · have := hi.len; simp only; omega
      · have := hi.sem_eq; simp only [List.length_cons]; omega
      · simp only; omega
      · intro k hk
        simp only [List.mem_cons] at hk
        rcases hk with hk | hk
        · simp only; omega
        · have := hi.run_lt k hk; simp only; omega
      · simp only [List.nodup_cons]
        refine ⟨?_, hi.nodup⟩
        intro hmem
        have := hi.run_lt _ hmem
        omega
      · intro k p hk
        obtain ⟨q, hq, hid, hc⟩ := hi.recs k p hk
        refine ⟨q, hq, hid, ?_⟩
        by_cases hks : k = s.i
        · subst hks
          simp at hc ⊢
          exact hc
        · have e1 : (k < s.i + 1 ∧ k ∉ s.i :: s.running) ↔ (k < s.i ∧ k ∉ s.running) := by
            simp only [List.mem_cons, not_or]
            constructor
            · rintro ⟨a, _, c⟩; exact ⟨by omega, c⟩
            · rintro ⟨a, c⟩; exact ⟨by omega, hks, c⟩
          simp only [e1]
          exact hc
      · intro hd
        have := hi.fill_i hd
        have := hi.len
        simp only at *; omega
      · intro hw; simp only at hw; rw [hph] at hw; cases hw
      · intro _; simp only; exact hi.out_none (by rw [hph]; decide)
    · cases h
  | finish k =>
    simp only [step] at h
    split at h
    · rename_i hg
      obtain ⟨hph, hmem, hsem⟩ := hg
      split at h
      · cases h
      · rename_i p hp
        split at h
        · rename_i q hq
          cases h
          exact inv_release env orig s k p q false hi hph hmem hsem hp
            (fetchTask_id env p q hq) (by simpa using hq)
        · cases h
    · cases h
  | fatal k =>
    simp only [step] at h
    split at h
    · rename_i hg
      split at h
      · cases h
      · split at h
        · cases h
          exact inv_exit env orig s hi hg.1
        · cases h
    · cases h
  | crash k q =>
    simp only [step] at h
    split at h
    · rename_i hg
      obtain ⟨hph, hmem, hsem⟩ := hg
      split at h
      · cases h
      · rename_i p hp
        split at h
        · rename_i hres
          split at h
          · rename_i hid
            cases h
            exact inv_release env orig s k p q true hi hph hmem hsem hp hid (by simpa using hres)
          · cases h
        · cases h
    · cases h
  | exit =>
    simp only [step] at h
    split at h
    · rename_i hg
      cases h
      exact inv_exit env orig s hi hg.1
    · cases h
  | fill =>
    simp only [step] at h
    split at h
    · rename_i hg
      obtain ⟨hph, hil, hdr, hsem⟩ := hg
      cases h
      refine ⟨hi.len, hi.i_le, ?_, ?_, hi.run_lt, hi.nodup, hi.recs, ?_, ?_, ?_⟩
      · have := hi.sem_eq; simp only; omega
      · simp only; omega
      · intro _; simp only; rw [hil]; exact hi.len
      · intro hw; simp only at hw; rw [hph] at hw; cases hw
      · intro _; simp only; exact hi.out_none (by rw [hph]; decide)
    · cases h
  | write =>
    simp only [step] at h
    split at h
    · rename_i hg
      obtain ⟨hph, hil, hdr⟩ := hg
      cases h
      refine ⟨hi.len, hi.i_le, hi.sem_eq, hi.sem_le, hi.run_lt, hi.nodup, hi.recs,
        hi.fill_i, ?_, ?_⟩
      · intro _; exact ⟨hdr, rfl⟩
      · intro hw; exact absurd rfl hw
    · cases h

theorem reachable_inv (env : Env) (lines : List (List String)) (s : State)
    (h : Reachable env lines s) : ∃ orig, loadPlayers lines = .ok orig ∧ Inv env orig s := by
  induction h with
  | init players hl => exact ⟨players, hl, inv_init env players⟩
  | step s t e _ hst ih =>
    obtain ⟨orig, hl, hinv⟩ := ih
    exact ⟨orig, hl, inv_step env orig s t e hinv hst⟩

/-! ## Loading and reachability -/

theorem loadPlayers_ok (lines : List (List String)) (players : List Player)
    (h : loadPlayers lines = .ok players) :
    players = (identifiers lines).map NewPlayer ∧ (identifiers lines).length = lines.length := by
  induction lines generalizing players with
  | nil =>
    simp only [loadPlayers, Outcome.ok.injEq] at h
    subst h; exact ⟨rfl, rfl⟩
  | cons line lines ih =>
    simp only [loadPlayers] at h
    split at h
    · cases h
    · rename_i name hname
      split at h
      · rename_i rest hrest
        cases h
        obtain ⟨h1, h2⟩ := ih rest hrest
        simp only [identifiers, List.filterMap_cons, hname]
        exact ⟨by rw [h1]; rfl, by simp only [List.length_cons]; rw [← h2]; rfl⟩
      · cases h
      · cases h

theorem reachable_run (env : Env) (lines : List (List String)) (s t : State)
    (es : List Event) (hs : Reachable env lines s) (h : run env s es = some t) :
    Reachable env lines t := by
  induction es generalizing s with
  | nil => simp only [run, Option.some.injEq] at h; subst h; exact hs
  | cons e es ih =>
    simp only [run] at h
    split at h
    · cases h
    · rename_i u hu
      exact ih u (Reachable.step s u e hs hu) h

/-- A schedule that runs through leads to a reachable state. -/
theorem reachable_stateAfter (env : Env) (lines : List (List String)) (es : List Event)
    (players : List Player) (t : State) (hl : loadPlayers lines = .ok players)
    (h : run env (State.init players) es = some t) :
    Reachable env lines (stateAfter env lines es) := by
  have : stateAfter env lines es = t := by
    simp only [stateAfter, hl, h, Option.getD_some]
  rw [this]
  exact reachable_run env lines _ t es (Reachable.init players hl) h

/-- In a reachable state the identifiers of the records are the loaded identifiers. -/
theorem inv_ids (env : Env) (orig : List Player) (s : State) (hi : Inv env orig s) :
    s.players.map Player.Id = orig.map Player.Id := by
  apply List.ext_getElem?
  intro k
  simp only [List.getElem?_map]
  cases ho : orig[k]? with
  | none =>
    have : s.players[k]? = none := by
      rw [List.getElem?_eq_none_iff] at ho ⊢
      rw [hi.len]; exact ho
    rw [this]
  | some p =>
    obtain ⟨q, hq, hid, _⟩ := hi.recs k p (by simpa using ho)
    have hq2 : s.players[k]? = some q := by simpa using hq
    rw [hq2]
    simp only [Option.map_some', Option.some.injEq]
    exact hid

theorem zipWith_map_left {α β γ : Type} (f : α → β → γ) (g : β → α) (l : List β) :
    List.zipWith f (l.map g) l = l.map (fun b => f (g b) b) := by
  induction l with
  | nil => rfl
  | cons b l ih => simp [ih]



/-! ## The table writer is reached -/


/-- From a state with no running task and an empty channel, `main` can launch every
remaining task and let it finish, when all of them end normally. -/
theorem launch_all (env : Env) (lines : List (List String)) (m : Nat) (s : State)
    (hr : Reachable env lines s) (hph : s.phase = .active) (hrun : s.running = [])
    (hsem : s.sem = 0) (hdr : s.drained = 0) (hm : s.i + m = s.players.length)
    (hok : ∀ k p, s.i ≤ k → s.players.get? k = some p → ∃ q, fetchTask env p = .ok q) :
    ∃ t, Reachable env lines t ∧ t.phase = .active ∧ t.running = [] ∧ t.sem = 0 ∧
      t.drained = 0 ∧ t.i = t.players.length := by
  induction m generalizing s with
  | zero => exact ⟨s, hr, hph, hrun, hsem, hdr, by omega⟩
  | succ m ih =>
    have hlt : s.i < s.players.length := by omega
    obtain ⟨p, hp⟩ : ∃ p, s.players.get? s.i = some p :=
      ⟨s.players[s.i], by simp [List.getElem?_eq_getElem hlt]⟩
    obtain ⟨q, hq⟩ := hok s.i p (Nat.le_refl _) hp
    have h1 : step env s .launch =
        some { s with i := s.i + 1, running := s.i :: s.running, sem := s.sem + 1 } := by
      simp [step, hph, hlt, hsem, Concurrency]
    have h2 : step env { s with i := s.i + 1, running := s.i :: s.running, sem := s.sem + 1 }
        (.finish s.i) =
        some { s with i := s.i + 1, players := s.players.set s.i q, running := [],
                      sem := 0 } := by
      have hp2 : s.players[s.i]? = some p := by simpa using hp
      simp [step, hph, hrun, hsem, hp2, hq]
    have r1 := Reachable.step _ _ _ hr h1
    have r2 := Reachable.step _ _ _ r1 h2
    refine ih _ r2 hph rfl rfl hdr ?_ ?_
    · simp only [List.length_set]; omega
    · intro k pk hk hpk
      simp only [List.get?_eq_getElem?] at hpk
      rw [List.getElem?_set_ne (by simp only at hk; omega)] at hpk
      exact hok k pk (by simp only at hk; omega) (by simpa using hpk)

/-- Once every task has finished, `main` can complete the drain loop. -/
theorem fill_all (env : Env) (lines : List (List String)) (m : Nat) (s : State)
    (hr : Reachable env lines s) (hph : s.phase = .active)
    (hi : s.i = s.players.length) (hsem : s.sem = s.drained)
    (hm : s.drained + m = Concurrency) :
    ∃ t, Reachable env lines t ∧ t.phase = .active ∧ t.i = t.players.length ∧
      t.drained = Concurrency ∧ t.players = s.players := by
  induction m generalizing s with
  | zero => exact ⟨s, hr, hph, hi, by omega, rfl⟩
  | succ m ih =>
    have h1 : step env s .fill =
        some { s with sem := s.sem + 1, drained := s.drained + 1 } := by
      have : s.drained < Concurrency := by omega
      simp [step, hph, hi, hsem, this]
    have r1 := Reachable.step _ _ _ hr h1
    exact ih { s with sem := s.sem + 1, drained := s.drained + 1 } r1 hph hi
      (by simp only; omega) (by simp only; omega)

/-- The table writer does run: when every fetch task ends normally, there is an
interleaving (the sequential one) after which the table is written. -/
theorem write_reachable (env : Env) (lines : List (List String)) (players : List Player)
    (hl : loadPlayers lines = .ok players)
    (hok : ∀ p ∈ players, ∃ q, fetchTask env p = .ok q) :
    ∃ s, Reachable env lines s ∧ s.phase = .written ∧
      s.output = some (writeRows s.players) := by
  obtain ⟨t, rt, tph, trun, tsem, tdr, ti⟩ :=
    launch_all env lines players.length (State.init players) (Reachable.init players hl)
      rfl rfl rfl rfl (by simp [State.init]) (by
        intro k p _ hp
        exact hok p (List.get?_mem hp))
  obtain ⟨u, ru, uph, ui, udr, _⟩ :=
    fill_all env lines Concurrency t rt tph ti (by rw [tsem, tdr]) (by rw [tdr]; omega)
  have h1 : step env u .write =
      some { u with phase := .written, output := some (writeRows u.players) } := by
    simp [step, uph, ui, udr]
  exact ⟨_, Reachable.step _ _ _ ru h1, rfl, rfl⟩

/-! ## The claims about the orchestrator and the table writer -/

/-- C1: whenever the table writer has run, under any interleaving of the fetch tasks,
the rows it was given are the fixed nine-column header followed by exactly one
nine-field row per loaded identifier, in load order; the first field of a row is the
input identifier and the others are the base-10 renderings of the record's rank,
`Total.Overall`, `Current.Overall`, losses, draws, MMR, prestige and level. -/
theorem C1_table_rows (env : Env) (lines : List (List String)) (s : State)
    (rows : List (List String)) (hr : Reachable env lines s) (ho : s.output = some rows) :
    (identifiers lines).length = lines.length ∧
    s.players.length = (identifiers lines).length ∧
    rows = ["id", "rank", "total wins", "current wins", "current losses", "current draws",
            "MMR", "prestige", "level"] ::
      List.zipWith (fun id p =>
        [id, Itoa p.Rank, Itoa p.Total.Overall, Itoa p.Current.Overall, Itoa p.Losses,
         Itoa p.Draws, Itoa p.MMR, Itoa p.Prestige, Itoa p.Level])
        (identifiers lines) s.players ∧
    rows.length = lines.length + 1 ∧ (∀ r ∈ rows, r.length = 9) := by
  obtain ⟨orig, hl, hi⟩ := reachable_inv env lines s hr
  obtain ⟨ho1, ho2⟩ := loadPlayers_ok lines orig hl
  have hids : s.players.map Player.Id = identifiers lines := by
    rw [inv_ids env orig s hi, ho1, List.map_map]
    exact List.map_id _
  have hw : s.phase = .written := by
    by_contra hne
    rw [hi.out_none hne] at ho
    cases ho
  have hout := (hi.out hw).2
  rw [ho, Option.some.injEq] at hout
  have hlen : s.players.length = (identifiers lines).length := by
    rw [hi.len, ho1, List.length_map]
  refine ⟨ho2, hlen, ?_, ?_, ?_⟩
  · rw [hout, ← hids, zipWith_map_left]
    rfl
  · rw [hout, writeRows, List.length_cons, List.length_map, hlen, ho2]
  · intro r hrow
    rw [hout, writeRows, List.mem_cons, List.mem_map] at hrow
    rcases hrow with rfl | ⟨p, _, rfl⟩
    · rfl
    · rfl

/-- C1 on the three-record file: the rows written after the example schedule. -/
theorem C1_table_rows_witness :
    (identifiers exampleLines).length = exampleLines.length ∧
    (stateAfter exampleEnv exampleLines exampleSchedule).players.length =
      (identifiers exampleLines).length ∧
    [["id", "rank", "total wins", "current wins", "current losses", "current draws", "MMR",
      "prestige", "level"],
     ["alice", "12", "42", "7", "1005", "9", "1234", "3", "45"],
     ["bob", "30", "0", "0", "0", "0", "0", "0", "0"],
     ["carol", "30", "0", "0", "0", "0", "0", "0", "0"]] =
    ["id", "rank", "total wins", "current wins", "current losses", "current draws",
            "MMR", "prestige", "level"] ::
      List.zipWith (fun id p =>
        [id, Itoa p.Rank, Itoa p.Total.Overall, Itoa p.Current.Overall, Itoa p.Losses,
         Itoa p.Draws, Itoa p.MMR, Itoa p.Prestige, Itoa p.Level])
        (identifiers exampleLines)
        (stateAfter exampleEnv exampleLines exampleSchedule).players ∧
    [["id", "rank", "total wins", "current wins", "current losses", "current draws", "MMR",
      "prestige", "level"],
     ["alice", "12", "42", "7", "1005", "9", "1234", "3", "45"],
     ["bob", "30", "0", "0", "0", "0", "0", "0", "0"],
     ["carol", "30", "0", "0", "0", "0", "0", "0", "0"]].length = exampleLines.length + 1 ∧
    (∀ r ∈ [["id", "rank", "total wins", "current wins", "current losses", "current draws",
      "MMR", "prestige", "level"],
     ["alice", "12", "42", "7", "1005", "9", "1234", "3", "45"],
     ["bob", "30", "0", "0", "0", "0", "0", "0", "0"],
     ["carol", "30", "0", "0", "0", "0", "0", "0", "0"]], r.length = 9) :=
  C1_table_rows exampleEnv exampleLines (stateAfter exampleEnv exampleLines exampleSchedule) _
    (reachable_stateAfter exampleEnv exampleLines exampleSchedule
      ((identifiers exampleLines).map NewPlayer)
      (stateAfter exampleEnv exampleLines exampleSchedule) (by decide) (by decide))
    (by decide)

/-- C9: in every reachable state of the orchestrator, for every identifier file and
every interleaving, at most 8 (`Concurrency`) fetch tasks are launched and not yet
finished; the channel never holds more than 8 values, and each unfinished task holds
one of them. -/
theorem C9_concurrency_cap (env : Env) (lines : List (List String)) (s : State)
    (hr : Reachable env lines s) :
    s.running.length ≤ 8 ∧ s.sem ≤ 8 ∧ s.sem = s.running.length + s.drained := by
  obtain ⟨orig, _, hi⟩ := reachable_inv env lines s hr
  have h1 := hi.sem_eq
  have h2 : s.sem ≤ 8 := hi.sem_le
  exact ⟨by omega, h2, h1⟩

/-- C9 on the nine-record file: after eight launches eight tasks are running, and the
ninth launch is blocked until one of them finishes. -/
theorem C9_concurrency_cap_witness :
    ((stateAfter exampleEnv nineLines (List.replicate 8 Event.launch)).running.length ≤ 8 ∧
     (stateAfter exampleEnv nineLines (List.replicate 8 Event.launch)).sem ≤ 8 ∧
     (stateAfter exampleEnv nineLines (List.replicate 8 Event.launch)).sem =
       (stateAfter exampleEnv nineLines (List.replicate 8 Event.launch)).running.length +
       (stateAfter exampleEnv nineLines (List.replicate 8 Event.launch)).drained) ∧
    (stateAfter exampleEnv nineLines (List.replicate 8 Event.launch)).running.length = 8 ∧
    step exampleEnv (stateAfter exampleEnv nineLines (List.replicate 8 Event.launch))
      Event.launch = none ∧
    (run exampleEnv (stateAfter exampleEnv nineLines (List.replicate 8 Event.launch))
      [Event.finish 3, Event.launch]).isSome = true :=
  ⟨C9_concurrency_cap exampleEnv nineLines _
    (reachable_stateAfter exampleEnv nineLines (List.replicate 8 Event.launch)
      ((identifiers nineLines).map NewPlayer)
      (stateAfter exampleEnv nineLines (List.replicate 8 Event.launch))
      (by decide) (by decide)),
   by decide, by decide, by decide⟩

/-- C10: the drain loop, in which `main` itself puts 8 values into the channel, can
only be complete in a state where every task has been launched and has released its
slot; so when the table writer runs, no task is unfinished and every record is final:
it carries its identifier and, for a task that ended normally, it is the result of the
fetch task of that identifier.  The rows written do not depend on the interleaving
(when no task ended in a runtime error, whose record the model leaves open). -/
theorem C10_drain_waits (env : Env) (lines : List (List String)) (s : State)
    (hr : Reachable env lines s) (hd : s.drained = Concurrency ∨ s.phase = .written) :
    s.running = [] ∧ s.i = lines.length ∧
    (∀ k id, (identifiers lines).get? k = some id →
      ∃ q, s.players.get? k = some q ∧ q.Id = id ∧
        (if k ∈ s.crashed then fetchTask env (NewPlayer id) = .outOfRange
         else fetchTask env (NewPlayer id) = .ok q)) ∧
    (s.phase = .written → s.output = some (writeRows s.players)) ∧
    (∀ t, Reachable env lines t → t.phase = .written → s.phase = .written →
      s.crashed = [] → t.output = s.output) := by
  have key : ∀ u, Reachable env lines u → (u.drained = Concurrency ∨ u.phase = .written) →
      u.running = [] ∧ u.i = lines.length ∧ u.players.length = lines.length ∧
      (∀ k id, (identifiers lines).get? k = some id →
        ∃ q, u.players.get? k = some q ∧ q.Id = id ∧
          (if k ∈ u.crashed then fetchTask env (NewPlayer id) = .outOfRange
           else fetchTask env (NewPlayer id) = .ok q)) ∧
      (u.phase = .written → u.output = some (writeRows u.players)) := by
    intro u hu hdu
    obtain ⟨orig, hl, hi⟩ := reachable_inv env lines u hu
    obtain ⟨ho1, ho2⟩ := loadPlayers_ok lines orig hl
    have hdr : u.drained = Concurrency := by
      rcases hdu with h | h
      · exact h
      · exact (hi.out h).1
    have hrun : u.running = [] := by
      have h1 := hi.sem_eq
      have h2 := hi.sem_le
      rw [hdr] at h1
      exact List.length_eq_zero.1 (by omega)
    have hlen : orig.length = lines.length := by rw [ho1, List.length_map, ho2]
    have hi_eq : u.i = orig.length := hi.fill_i (by rw [hdr]; decide)
    refine ⟨hrun, by rw [hi_eq, hlen], by rw [hi.len, hlen], ?_, fun hw => (hi.out hw).2⟩
    intro k id hk
    have hk2 : orig.get? k = some (NewPlayer id) := by
      rw [ho1]
      simp only [List.get?_eq_getElem?, List.getElem?_map] at hk ⊢
      rw [hk]; rfl
    obtain ⟨q, hq, hid, hc⟩ := hi.recs k _ hk2
    have hklt : k < u.i := by
      rw [hi_eq]
      have := List.get?_eq_some.1 hk2
      exact this.1
    rw [hrun] at hc
    simp only [hklt, List.not_mem_nil, not_false_eq_true, and_self, if_true] at hc
    exact ⟨q, hq, hid, hc⟩
  obtain ⟨h1, h2, h3, h4, h5⟩ := key s hr hd
  refine ⟨h1, h2, h4, h5, ?_⟩
  intro t ht htw hsw hsc
  obtain ⟨_, _, t3, t4, t5⟩ := key t ht (Or.inr htw)
  rw [t5 htw, h5 hsw]
  have : t.players = s.players := by
    apply List.ext_getElem?
    intro k
    cases hk : (identifiers lines).get? k with
    | none =>
      have hge : lines.length ≤ k := by
        have := List.get?_eq_none.1 hk
        have h6 := (loadPlayers_ok lines _
          (reachable_inv env lines s hr).choose_spec.1).2
        omega
      rw [List.getElem?_eq_none_iff.2 (by omega), List.getElem?_eq_none_iff.2 (by omega)]
    | some id =>
      obtain ⟨q1, g1, _, f1⟩ := t4 k id hk
      obtain ⟨q2, g2, _, f2⟩ := h4 k id hk
      rw [hsc] at f2
      simp only [List.not_mem_nil, if_false] at f2
      have hq : q1 = q2 := by
        split at f1
        · rw [f1] at f2; cases f2
        · rw [f1] at f2; cases f2; rfl
      simp only [List.get?_eq_getElem?] at g1 g2
      rw [g1, g2, hq]
  rw [this]

/-- C10 on the three-record file: after the example schedule the writer has run, no
task is unfinished, and the records are the results of the three fetch tasks. -/
theorem C10_drain_waits_witness :
    (stateAfter exampleEnv exampleLines exampleSchedule).phase = .written ∧
    ((stateAfter exampleEnv exampleLines exampleSchedule).running = [] ∧
     (stateAfter exampleEnv exampleLines exampleSchedule).i = exampleLines.length ∧
     (∀ k id, (identifiers exampleLines).get? k = some id →
       ∃ q, (stateAfter exampleEnv exampleLines exampleSchedule).players.get? k = some q ∧
         q.Id = id ∧
         (if k ∈ (stateAfter exampleEnv exampleLines exampleSchedule).crashed then
            fetchTask exampleEnv (NewPlayer id) = .outOfRange
          else fetchTask exampleEnv (NewPlayer id) = .ok q)) ∧
     ((stateAfter exampleEnv exampleLines exampleSchedule).phase = .written →
       (stateAfter exampleEnv exampleLines exampleSchedule).output =
         some (writeRows (stateAfter exampleEnv exampleLines exampleSchedule).players)) ∧
     (∀ t, Reachable exampleEnv exampleLines t → t.phase = .written →
       (stateAfter exampleEnv exampleLines exampleSchedule).phase = .written →
       (stateAfter exampleEnv exampleLines exampleSchedule).crashed = [] →
       t.output = (stateAfter exampleEnv exampleLines exampleSchedule).output)) :=
  ⟨rfl,
   C10_drain_waits exampleEnv exampleLines _
    (reachable_stateAfter exampleEnv exampleLines exampleSchedule
      ((identifiers exampleLines).map NewPlayer)
      (stateAfter exampleEnv exampleLines exampleSchedule) (by decide) (by decide))
    (Or.inr rfl)⟩

/-- The window after a runtime error: on the one-record file whose page has no marker,
the task ends in an index-out-of-range error, its deferred `<-sem` runs, and `main` can
complete the drain loop and write the table before the process terminates. -/
theorem crash_then_write :
    fetchTask exampleEnv (NewPlayer "dave") = .outOfRange ∧
    (stateAfter exampleEnv [["dave"]]
      ([.launch, .crash 0 (NewPlayer "dave")] ++ List.replicate 8 Event.fill ++
        [.write])).output =
      some [["id", "rank", "total wins", "current wins", "current losses", "current draws",
             "MMR", "prestige", "level"],
            ["dave", "30", "0", "0", "0", "0", "0", "0", "0"]] ∧
    (run exampleEnv (State.init [NewPlayer "dave"]) [.launch, .finish 0]) = none :=
  ⟨by decide, by decide, by decide⟩
/-! ## The claims about the fetch task -/

/-- C2: if the response status is not 200, or it is 200 and the body contains the
literal `THIS PLAYER PROFILE IS PRIVATE` (whatever else it contains), the fetch task ends
normally and leaves the record exactly as `NewPlayer` made it: rank 30, MMR, losses,
draws, prestige, level and both `ProfileData` zero, identifier unchanged. -/
theorem C2_default_record (env : Env) (id : String) (status : Int)
    (body : Option (List Char))
    (hget : env.Get (UrlBase ++ id) = .response status body)
    (h : status ≠ 200 ∨
      (status = 200 ∧ ∃ b, body = some b ∧ "THIS PLAYER PROFILE IS PRIVATE".toList <:+: b)) :
    fetchTask env (NewPlayer id) = .ok (NewPlayer id) ∧
    NewPlayer id =
      { Current := { Overall := 0, Factions := [] }, Total := { Overall := 0, Factions := [] },
        Losses := 0, Draws := 0, MMR := 0, Rank := 30, Prestige := 0, Level := 0, Id := id } := by
  refine ⟨?_, rfl⟩
  have hid : (NewPlayer id).Id = id := rfl
  unfold fetchTask
  rw [hid, hget]
  rcases h with h | ⟨h, b, hb, hinf⟩
  · simp only [h, if_false, pure_eq_ok]
  · subst hb
    simp only [h, if_true, processBody, (private_iff b).2 hinf, pure_eq_ok]

/-- C2 on the example server: `bob` has a private page (which also carries an MMR
marker), `carol` gets a 404. -/
theorem C2_default_record_witness :
    (fetchTask exampleEnv (NewPlayer "bob") = .ok (NewPlayer "bob") ∧
     NewPlayer "bob" =
      { Current := { Overall := 0, Factions := [] }, Total := { Overall := 0, Factions := [] },
        Losses := 0, Draws := 0, MMR := 0, Rank := 30, Prestige := 0, Level := 0,
        Id := "bob" }) ∧
    (fetchTask exampleEnv (NewPlayer "carol") = .ok (NewPlayer "carol") ∧
     NewPlayer "carol" =
      { Current := { Overall := 0, Factions := [] }, Total := { Overall := 0, Factions := [] },
        Losses := 0, Draws := 0, MMR := 0, Rank := 30, Prestige := 0, Level := 0,
        Id := "carol" }) :=
  ⟨C2_default_record exampleEnv "bob" 200 (some privatePage) (by decide)
    (Or.inr ⟨rfl, privatePage, rfl,
      ⟨"<html><h1>".toList, "</h1> 77 MMR</html>".toList, by decide⟩⟩),
   C2_default_record exampleEnv "carol" 404 none (by decide) (Or.inl (by decide))⟩


/-- C3, as stated, fails: both pages are public and contain an assignment
`var profileDataWins = <JSON>;` whose JSON is a valid object with overall count 42, and
on both the extraction ends in `log.Fatal` instead of completing with total wins 42.  On
the first the current-season fragment does not decode; on the second the JSON has a
semicolon inside a string, and the pattern captures only the text before it. -/
theorem C3_counterexample :
    (MatchString privateRegex badCurrentPage = false ∧
     "var profileDataWins = ".toList ++ json42 ++ [';'] <:+: badCurrentPage ∧
     jsonUnmarshal json42 ProfileData.zero =
       some { Overall := 42, Factions := [{ Slug := "NR".toList, Count := 10 }] } ∧
     processBody exampleEnv (NewPlayer "alice") badCurrentPage = .fatal) ∧
    (MatchString privateRegex semicolonPage = false ∧
     "var profileDataWins = ".toList ++ semicolonJson ++ [';'] <:+: semicolonPage ∧
     jsonUnmarshal semicolonJson ProfileData.zero =
       some { Overall := 42, Factions := [{ Slug := "N;R".toList, Count := 10 }] } ∧
     processBody exampleEnv (NewPlayer "alice") semicolonPage = .fatal) :=
  ⟨⟨by decide, ⟨[], "var profileDataCurrent = undefined;<span>1,234 MMR</span>".toList,
      by decide⟩, by decide, by decide⟩,
   ⟨by decide, ⟨[], current7, by decide⟩, by decide, by decide⟩⟩

/-- C3, amended: on every public page in which the first match of
`var profileDataWins = (.*?);` captures a text `J` that decodes to the stats `t`:
whenever the extraction completes, the lifetime stats of the record are `t`, so the
total-wins column is the overall count of `t`; `J` is what stands in the body between
the literal and the first semicolon after it, on one line; and the extraction does
complete when, in addition, the first match of `var profileDataCurrent = (.*?);`
captures a text that decodes, the rating pattern either does not match or matches
together with the losses, draws and rank patterns with digit groups that parse, and the
prestige/level pattern either does not match or matches with two groups that parse. -/
theorem C3_total_wins (env : Env) (p : Player) (body J : List Char) (t : ProfileData)
    (hp : MatchString privateRegex body = false)
    (hm : (FindStringSubmatch winsRegex body).get? 1 = some J)
    (hd : env.Unmarshal J p.Total = some t) :
    (∀ q, processBody env p body = .ok q →
      q.Total = t ∧ (row q).get? 2 = some (Itoa t.Overall)) ∧
    (∃ pre post, body = pre ++ "var profileDataWins = ".toList ++ J ++ ';' :: post ∧
      ';' ∉ J ∧ '\n' ∉ J ∧
      FindStringSubmatch winsRegex body =
        ["var profileDataWins = ".toList ++ J ++ [';'], J]) ∧
    (∀ J2 c, (FindStringSubmatch currentRegex body).get? 1 = some J2 →
      env.Unmarshal J2 p.Current = some c →
      (FindStringSubmatch mmrRegex body = [] ∨
        ∃ gm vm gl vl gd vd gr vr,
          (FindStringSubmatch mmrRegex body).get? 1 = some gm ∧
          Atoi (stripCommas gm) = some vm ∧
          (FindStringSubmatch lossesRegex body).get? 1 = some gl ∧
          Atoi (stripCommas gl) = some vl ∧
          (FindStringSubmatch drawsRegex body).get? 1 = some gd ∧
          Atoi (stripCommas gd) = some vd ∧
          (FindStringSubmatch rankRegex body).get? 1 = some gr ∧ Atoi gr = some vr) →
      (FindStringSubmatch prestigeRegex body = [] ∨
        ∃ g1 v1 g2 v2,
          (FindStringSubmatch prestigeRegex body).get? 1 = some g1 ∧ Atoi g1 = some v1 ∧
          (FindStringSubmatch prestigeRegex body).get? 2 = some g2 ∧ Atoi g2 = some v2) →
      ∃ q, processBody env p body = .ok q ∧ q.Total = t ∧ q.Current = c ∧
        (row q).get? 2 = some (Itoa t.Overall)) := by
  have hproc : processBody env p body = extract env p body := by
    simp [processBody, hp]
  have hrow : ∀ q : Player, q.Total = t → (row q).get? 2 = some (Itoa t.Overall) := by
    intro q ht; rw [← ht]; rfl
  refine ⟨?_, ?_, ?_⟩
  · intro q hq
    rw [hproc] at hq
    unfold extract at hq
    obtain ⟨p1, h1, h2⟩ := bind_eq_ok hq
    obtain ⟨J1, _, hJ, hd1, _, _, _⟩ := decodeStats_ok env p p1 body h1
    have hJ1 : J1 = J := by
      rw [hm] at hJ; exact (Option.some.inj hJ).symm
    subst hJ1
    have ht : q.Total = t := by
      rw [(numericFields_ok p1 q body h2).2.1]
      rw [hd] at hd1; exact (Option.some.inj hd1).symm
    exact ⟨ht, hrow q ht⟩
  · have hne : FindStringSubmatch (lazyAssign "var profileDataWins = ".toList) body ≠ [] := by
      rw [← winsRegex_eq]
      intro h0; rw [h0] at hm; cases hm
    obtain ⟨pre, J0, post, hb, hs, hn, hf⟩ := lazyAssign_find _ body hne
    rw [← winsRegex_eq] at hf
    have hJ0 : J = J0 := by
      rw [hf] at hm
      simpa using hm.symm
    subst hJ0
    exact ⟨pre, post, hb, hs, hn, hf⟩
  · intro J2 c h2 hc hM hP
    have hm2 : (FindStringSubmatch winsRegex body)[1]? = some J := by simpa using hm
    have h22 : (FindStringSubmatch currentRegex body)[1]? = some J2 := by simpa using h2
    have hdec : decodeStats env p body = .ok { p with Total := t, Current := c } := by
      simp [decodeStats, index, hm2, h22, hd, hc, checkError]
    obtain ⟨q, hq⟩ := numericFields_completes { p with Total := t, Current := c } body hM hP
    have hk := numericFields_ok _ q body hq
    refine ⟨q, ?_, hk.2.1, hk.1, hrow q hk.2.1⟩
    rw [hproc]
    simp [extract, hdec, hq]

/-- C3 amended, on the page that is the example assignment followed by the assignment
`var profileDataCurrent = {"overall":7,"factions":[]};`: the page is public, the
pattern captures the example object, which decodes with overall count 42, and the
extraction completes with total wins 42. -/
theorem C3_total_wins_witness :
    MatchString privateRegex statsPage = false ∧
    (FindStringSubmatch winsRegex statsPage).get? 1 = some json42 ∧
    exampleEnv.Unmarshal json42 (NewPlayer "alice").Total =
      some { Overall := 42, Factions := [{ Slug := "NR".toList, Count := 10 }] } ∧
    processBody exampleEnv (NewPlayer "alice") statsPage = .ok statsRecord ∧
    (row statsRecord).get? 2 = some "42" ∧
    (∃ q, processBody exampleEnv (NewPlayer "alice") statsPage = .ok q ∧
      q.Total = { Overall := 42, Factions := [{ Slug := "NR".toList, Count := 10 }] } ∧
      q.Current = { Overall := 7, Factions := [] } ∧
      (row q).get? 2 = some (Itoa 42)) :=
  ⟨by decide, by decide, by decide, by decide, by decide,
   (C3_total_wins exampleEnv (NewPlayer "alice") statsPage json42
      { Overall := 42, Factions := [{ Slug := "NR".toList, Count := 10 }] }
      (by decide) (by decide) (by decide)).2.2
     "\x7b\"overall\":7,\"factions\":[]\x7d".toList { Overall := 7, Factions := [] }
     (by decide) (by decide) (Or.inl (by decide)) (Or.inl (by decide))⟩

/-- C4, as stated, fails: both pages are public and contain a rating marker, and on both
the extraction ends in `log.Fatal` instead of completing with the rating.  On the first
`MMR` is preceded by `1,234` and the current-season fragment does not decode; on the
second every fragment and marker is well-formed and the rating, 2^63, does not fit an
`int`. -/
theorem C4_counterexample :
    (MatchString privateRegex badCurrentPage = false ∧
     FindStringSubmatch mmrRegex badCurrentPage = ["1,234 MMR".toList, "1,234".toList] ∧
     processBody exampleEnv (NewPlayer "alice") badCurrentPage = .fatal) ∧
    (MatchString privateRegex bigRatingPage = false ∧
     FindStringSubmatch mmrRegex bigRatingPage =
       ["9,223,372,036,854,775,808 MMR".toList, "9,223,372,036,854,775,808".toList] ∧
     processBody exampleEnv (NewPlayer "alice") bigRatingPage = .fatal) :=
  ⟨⟨by decide, by decide, by decide⟩, ⟨by decide, by decide, by decide⟩⟩

/-- C4, amended: on every public page that contains a rating marker (a digit, then
digits and commas, then ` MMR`) and on which the extraction completes, the pattern
`mmrRegex` has matched at the leftmost such marker, and the rating of the record is the
integer whose decimal digits are the matched digit group without its commas; that
integer is below 2^63. -/
theorem C4_mmr (env : Env) (p q : Player) (body pre : List Char) (d : Char)
    (run post : List Char)
    (hp : MatchString privateRegex body = false)
    (hq : processBody env p body = .ok q)
    (hb : body = pre ++ (d :: run ++ " MMR".toList) ++ post) (hd : d.isDigit = true)
    (hrun : ∀ x ∈ run, x.isDigit = true ∨ x = ',') :
    ∃ pre1 d1 run1 post1, body = pre1 ++ (d1 :: run1 ++ " MMR".toList) ++ post1 ∧
      pre1.length ≤ pre.length ∧ d1.isDigit = true ∧
      (∀ x ∈ run1, x.isDigit = true ∨ x = ',') ∧
      FindStringSubmatch mmrRegex body = [d1 :: run1 ++ " MMR".toList, d1 :: run1] ∧
      q.MMR = (digitsValue (stripCommas (d1 :: run1)) : Int) ∧
      digitsValue (stripCommas (d1 :: run1)) < 2 ^ 63 ∧
      (row q).get? 6 = some (Itoa q.MMR) := by
  obtain ⟨pre1, d1, run1, post1, hb1, hle, hd1, hr1, hf⟩ :=
    mmr_find_of body pre d run post hb hd hrun
  simp only [processBody, hp, Bool.false_eq_true, if_false] at hq
  unfold extract at hq
  obtain ⟨p1, _, h2⟩ := bind_eq_ok hq
  have hlen : 1 < (FindStringSubmatch mmrRegex body).length := by rw [hf]; simp
  obtain ⟨⟨g, hg, ha⟩, _⟩ := (numericFields_ok p1 q body h2).2.2.2.2.1 hlen
  have hg1 : g = d1 :: run1 := by
    rw [hf] at hg
    simpa using hg.symm
  subst hg1
  have hhead := stripCommas_group d1 run1 hd1
  have hminus : (stripCommas (d1 :: run1)).head? ≠ some '-' := by
    rw [hhead]; intro hc
    simp only [Option.some.injEq] at hc
    rw [hc] at hd1; revert hd1; decide
  have hplus : (stripCommas (d1 :: run1)).head? ≠ some '+' := by
    rw [hhead]; intro hc
    simp only [Option.some.injEq] at hc
    rw [hc] at hd1; revert hd1; decide
  obtain ⟨hv, _, _, hlt⟩ := atoi_unsigned _ _ ha hminus hplus
  exact ⟨pre1, d1, run1, post1, hb1, hle, hd1, hr1, hf, hv, hlt, rfl⟩

/-- C4 amended, on the example page, where `MMR` is preceded by `1,234`: the extraction
completes and the rating is 1234. -/
theorem C4_mmr_witness :
    processBody exampleEnv (NewPlayer "alice") fullPage = .ok fullRecord ∧
    fullRecord.MMR = 1234 ∧
    FindStringSubmatch mmrRegex fullPage = ["1,234 MMR".toList, "1,234".toList] ∧
    ∃ pre1 d1 run1 post1, fullPage = pre1 ++ (d1 :: run1 ++ " MMR".toList) ++ post1 ∧
      pre1.length ≤ fullHead.length ∧ d1.isDigit = true ∧
      (∀ x ∈ run1, x.isDigit = true ∨ x = ',') ∧
      FindStringSubmatch mmrRegex fullPage = [d1 :: run1 ++ " MMR".toList, d1 :: run1] ∧
      fullRecord.MMR = (digitsValue (stripCommas (d1 :: run1)) : Int) ∧
      digitsValue (stripCommas (d1 :: run1)) < 2 ^ 63 ∧
      (row fullRecord).get? 6 = some (Itoa fullRecord.MMR) :=
  ⟨by decide, rfl, by decide,
   C4_mmr exampleEnv (NewPlayer "alice") fullRecord fullPage fullHead '1' ",234".toList
    fullTail (by decide) (by decide) rfl (by decide)
    (by intro x hx
        simp only [String.toList, List.mem_cons, List.mem_singleton, List.not_mem_nil,
          or_false] at hx
        rcases hx with rfl | rfl | rfl | rfl <;> decide)⟩


/-- C5 at three public pages from which a marker is absent: the extraction does not
terminate with the defaults, it ends in an index-out-of-range error.  The first page has
no marker at all (it is what the example server returns for `dave`) and the error is at
`winsMatch[1]`; the second is the example assignment of the lifetime fragment alone,
which decodes, and the error is at `currentMatch[1]`; the third has both JSON fragments
and a rating marker but no losses marker, and the error is at `lossesMatch[1]`. -/
theorem C5_absent_markers :
    (MatchString privateRegex emptyPage = false ∧
     FindStringSubmatch winsRegex emptyPage = [] ∧
     processBody exampleEnv (NewPlayer "alice") emptyPage = .outOfRange ∧
     fetchTask exampleEnv (NewPlayer "dave") = .outOfRange) ∧
    (MatchString privateRegex wins42 = false ∧
     FindStringSubmatch winsRegex wins42 = [wins42, json42] ∧
     jsonUnmarshal json42 ProfileData.zero =
       some { Overall := 42, Factions := [{ Slug := "NR".toList, Count := 10 }] } ∧
     FindStringSubmatch currentRegex wins42 = [] ∧
     processBody exampleEnv (NewPlayer "alice") wins42 = .outOfRange) ∧
    (MatchString privateRegex ratingOnlyPage = false ∧
     decodeStats exampleEnv (NewPlayer "alice") ratingOnlyPage = .ok statsRecord ∧
     FindStringSubmatch mmrRegex ratingOnlyPage = ["1,234 MMR".toList, "1,234".toList] ∧
     FindStringSubmatch lossesRegex ratingOnlyPage = [] ∧
     processBody exampleEnv (NewPlayer "alice") ratingOnlyPage = .outOfRange) :=
  ⟨⟨by decide, by decide, by decide, by decide⟩,
   ⟨by decide, by decide, by decide, by decide, by decide⟩,
   ⟨by decide, by decide, by decide, by decide, by decide⟩⟩

/-- C6 at a public page with both JSON fragments valid, losses and draws markers, a
rating marker and no rank marker: the extraction does not complete with rank 30, it
ends in an index-out-of-range error at `rankMatch[1]`. -/
theorem C6_no_rank_marker :
    MatchString privateRegex noRankPage = false ∧
    decodeStats exampleEnv (NewPlayer "alice") noRankPage = .ok statsRecord ∧
    FindStringSubmatch mmrRegex noRankPage = ["1,234 MMR".toList, "1,234".toList] ∧
    (FindStringSubmatch lossesRegex noRankPage).get? 1 = some "1,005".toList ∧
    (FindStringSubmatch drawsRegex noRankPage).get? 1 = some "9".toList ∧
    FindStringSubmatch rankRegex noRankPage = [] ∧
    processBody exampleEnv (NewPlayer "alice") noRankPage = .outOfRange :=
  ⟨by decide, by decide, by decide, by decide, by decide, by decide, by decide⟩

/-- C8 at a public page with both JSON fragments valid, no rating marker, and a rank
marker whose digit group is empty: the matched group is not a parsable integer, yet the
extraction does not end in `log.Fatal`: it completes and the rank stays 30. -/
theorem C8_unparsed_group :
    MatchString privateRegex emptyRankPage = false ∧
    FindStringSubmatch rankRegex emptyRankPage = ["-details__rank\"><strong><".toList, []] ∧
    Atoi [] = none ∧
    FindStringSubmatch mmrRegex emptyRankPage = [] ∧
    processBody exampleEnv (NewPlayer "alice") emptyRankPage = .ok statsRecord ∧
    statsRecord.Rank = 30 :=
  ⟨by decide, by decide, by decide, by decide, by decide, rfl⟩

/-- C7, as stated, fails for prestige and level.  On the first page the rating pattern
does not match and yet prestige and level are parsed and overwritten (3 and 45); on the
second the rating pattern matches, there is no prestige/level marker, and the
extraction completes with prestige and level unchanged. -/
theorem C7_counterexample :
    (MatchString privateRegex prestigeOnlyPage = false ∧
     FindStringSubmatch mmrRegex prestigeOnlyPage = [] ∧
     processBody exampleEnv (NewPlayer "alice") prestigeOnlyPage =
       .ok { statsRecord with Prestige := 3, Level := 45 }) ∧
    (MatchString privateRegex noPrestigePage = false ∧
     FindStringSubmatch mmrRegex noPrestigePage = ["1,234 MMR".toList, "1,234".toList] ∧
     FindStringSubmatch prestigeRegex noPrestigePage = [] ∧
     processBody exampleEnv (NewPlayer "alice") noPrestigePage =
       .ok { fullRecord with Prestige := 0, Level := 0 }) :=
  ⟨⟨by decide, by decide, by decide⟩, ⟨by decide, by decide, by decide, by decide⟩⟩

/-- C7, amended: on every page on which the extraction reaches the numeric fields and
completes, losses, draws and rank are gated on the rating (MMR) match and prestige and
level on the prestige/level match.  When the rating pattern does not match, losses,
draws and rank keep their values whatever their own markers matched, and the stage is
the prestige/level step alone; when it matches, each of the three is the parsed digit
group of its own marker.  Prestige and level are overwritten exactly when the
prestige/level pattern matches, whether or not the rating pattern does. -/
theorem C7_gating (p q : Player) (body : List Char) (h : numericFields p body = .ok q) :
    (FindStringSubmatch mmrRegex body = [] →
      q.Losses = p.Losses ∧ q.Draws = p.Draws ∧ q.Rank = p.Rank ∧
      numericFields p body = parsePrestige p (FindStringSubmatch prestigeRegex body)) ∧
    (FindStringSubmatch mmrRegex body ≠ [] →
      (∃ g, (FindStringSubmatch lossesRegex body).get? 1 = some g ∧
        Atoi (stripCommas g) = some q.Losses) ∧
      (∃ g, (FindStringSubmatch drawsRegex body).get? 1 = some g ∧
        Atoi (stripCommas g) = some q.Draws) ∧
      (∃ g, (FindStringSubmatch rankRegex body).get? 1 = some g ∧
        Atoi g = some q.Rank)) ∧
    (FindStringSubmatch prestigeRegex body = [] →
      q.Prestige = p.Prestige ∧ q.Level = p.Level) ∧
    (FindStringSubmatch prestigeRegex body ≠ [] →
      ∃ w g1 g2, FindStringSubmatch prestigeRegex body = [w, g1, g2] ∧
        Atoi g1 = some q.Prestige ∧ Atoi g2 = some q.Level) := by
  obtain ⟨_, _, _, k1, k2, k3, k4⟩ := numericFields_ok p q body h
  refine ⟨?_, ?_, ?_, ?_⟩
  · intro h0
    have hn : ¬ 1 < (FindStringSubmatch mmrRegex body).length := by rw [h0]; decide
    obtain ⟨_, a, b, c⟩ := k1 hn
    refine ⟨a, b, c, ?_⟩
    simp [numericFields, parseMMR, parseLosses, parseDraws, parseRank, h0]
  · intro hne
    exact (k2 ((mmr_nonempty_iff body).1 hne)).2
  · intro h0
    exact k3 (by rw [h0]; decide)
  · intro hne
    obtain ⟨g1, g2, e1, e2, a1, a2⟩ := k4 ((prestige_nonempty_iff body).1 hne)
    have hlen : (FindStringSubmatch prestigeRegex body).length = 3 := by
      rcases find_length prestigeRegex body with h | h
      · exact absurd h hne
      · rw [h]; rfl
    match hf : FindStringSubmatch prestigeRegex body, hlen with
    | [w, x, y], _ =>
      rw [hf] at e1 e2
      simp only [List.get?_eq_getElem?, List.getElem?_cons_succ, List.getElem?_cons_zero,
        Option.some.injEq] at e1 e2
      subst e1 e2
      exact ⟨w, x, y, rfl, a1, a2⟩

/-- C7 amended, on two pages.  On the example page both patterns match and every
numeric field is the parsed group of its own marker.  On the page with losses, draws
and rank markers but no rating marker the three fields keep their values. -/
theorem C7_gating_witness :
    (numericFields statsRecord fullPage = .ok fullRecord ∧
     FindStringSubmatch mmrRegex fullPage ≠ [] ∧
     FindStringSubmatch prestigeRegex fullPage ≠ [] ∧
     ((FindStringSubmatch mmrRegex fullPage = [] →
        fullRecord.Losses = statsRecord.Losses ∧ fullRecord.Draws = statsRecord.Draws ∧
        fullRecord.Rank = statsRecord.Rank ∧
        numericFields statsRecord fullPage =
          parsePrestige statsRecord (FindStringSubmatch prestigeRegex fullPage)) ∧
      (FindStringSubmatch mmrRegex fullPage ≠ [] →
        (∃ g, (FindStringSubmatch lossesRegex fullPage).get? 1 = some g ∧
          Atoi (stripCommas g) = some fullRecord.Losses) ∧
        (∃ g, (FindStringSubmatch drawsRegex fullPage).get? 1 = some g ∧
          Atoi (stripCommas g) = some fullRecord.Draws) ∧
        (∃ g, (FindStringSubmatch rankRegex fullPage).get? 1 = some g ∧
          Atoi g = some fullRecord.Rank)) ∧
      (FindStringSubmatch prestigeRegex fullPage = [] →
        fullRecord.Prestige = statsRecord.Prestige ∧ fullRecord.Level = statsRecord.Level) ∧
      (FindStringSubmatch prestigeRegex fullPage ≠ [] →
        ∃ w g1 g2, FindStringSubmatch prestigeRegex fullPage = [w, g1, g2] ∧
          Atoi g1 = some fullRecord.Prestige ∧ Atoi g2 = some fullRecord.Level))) ∧
    (numericFields statsRecord noRatingPage = .ok statsRecord ∧
     FindStringSubmatch mmrRegex noRatingPage = [] ∧
     (FindStringSubmatch lossesRegex noRatingPage).get? 1 = some "1,005".toList ∧
     (FindStringSubmatch rankRegex noRatingPage).get? 1 = some "12".toList ∧
     ((FindStringSubmatch mmrRegex noRatingPage = [] →
        statsRecord.Losses = statsRecord.Losses ∧ statsRecord.Draws = statsRecord.Draws ∧
        statsRecord.Rank = statsRecord.Rank ∧
        numericFields statsRecord noRatingPage =
          parsePrestige statsRecord (FindStringSubmatch prestigeRegex noRatingPage)) ∧
      (FindStringSubmatch mmrRegex noRatingPage ≠ [] →
        (∃ g, (FindStringSubmatch lossesRegex noRatingPage).get? 1 = some g ∧
          Atoi (stripCommas g) = some statsRecord.Losses) ∧
        (∃ g, (FindStringSubmatch drawsRegex noRatingPage).get? 1 = some g ∧
          Atoi (stripCommas g) = some statsRecord.Draws) ∧
        (∃ g, (FindStringSubmatch rankRegex noRatingPage).get? 1 = some g ∧
          Atoi g = some statsRecord.Rank)) ∧
      (FindStringSubmatch prestigeRegex noRatingPage = [] →
        statsRecord.Prestige = statsRecord.Prestige ∧
        statsRecord.Level = statsRecord.Level) ∧
      (FindStringSubmatch prestigeRegex noRatingPage ≠ [] →
        ∃ w g1 g2, FindStringSubmatch prestigeRegex noRatingPage = [w, g1, g2] ∧
          Atoi g1 = some statsRecord.Prestige ∧ Atoi g2 = some statsRecord.Level))) :=
  ⟨⟨by decide, by decide, by decide,
    C7_gating statsRecord fullRecord fullPage (by decide)⟩,
   ⟨by decide, by decide, by decide, by decide,
    C7_gating statsRecord statsRecord noRatingPage (by decide)⟩⟩
end GwentScraper
